import Mathlib

/-!
# Verification of the project-plan extraction pipeline

Shallow embedding of the repository's core functions:

* `src/shared/ScanDocument.py` — `try_parse_date`, `is_valid_resource_name`,
  `ProjectPlanExtractor._parse_task_line`, `_parse_text_to_tasks`,
  `_expand_tasks_by_resource`, `_normalize_task`;
* `src/llm/llama3.2_3b.py` — `post_process_result`, `merge_and_group_by_person`;
* `src/llm/test.py` — `refine_with_post_processing`, `normalize_date`,
  `extract_with_ollama` (outcome dispatch), `extract_project_data_with_llm`,
  `fallback_extraction`.

Python strings are modeled as Lean `String`/`List Char` (the repository's
inputs are ASCII project-plan text); Python floats that the code only sums
and truncates are modeled as exact rationals `ℚ`; Python dicts with a fixed
key set are modeled as structures; `None`-returning functions return
`Option`.  Python regular expressions are embedded as specialized matchers,
each documented with the regex it implements and following Python `re`
backtracking semantics (leftmost match, alternation in written order,
greedy/lazy quantifiers as marked).
-/

namespace Spec2Proof

/-! ## Python string primitives -/

/-- Python whitespace for `str.strip`/`str.split`/regex `\s` (ASCII range):
space, tab, newline, carriage return, form feed, vertical tab. -/
def pyIsSpace (c : Char) : Bool :=
  c = ' ' || c = '\t' || c = '\n' || c = '\x0d' || c = '\x0c' || c = '\x0b'

/-- ASCII decimal digit, Python regex `\d` / `str.isdigit` on ASCII input. -/
def pyIsDigit (c : Char) : Bool := '0' ≤ c && c ≤ '9'

/-- ASCII letter, Python regex `[A-Za-z]`. -/
def pyIsAlpha (c : Char) : Bool := ('a' ≤ c && c ≤ 'z') || ('A' ≤ c && c ≤ 'Z')

/-- Python regex word character `\w` on ASCII input: `[A-Za-z0-9_]`. -/
def pyIsWord (c : Char) : Bool := pyIsAlpha c || pyIsDigit c || c = '_'

/-- ASCII lowercasing of one character (`str.lower` on ASCII input). -/
def pyLowerChar (c : Char) : Char :=
  if 'A' ≤ c && c ≤ 'Z' then Char.ofNat (c.toNat + 32) else c

/-- `str.lower` on a character list. -/
def pyLowerL (s : List Char) : List Char := s.map pyLowerChar

/-- `str.lower` on a `String`. -/
def pyLower (s : String) : String := ⟨pyLowerL s.data⟩

/-- `str.strip()` on a character list: drop leading and trailing whitespace. -/
def pyStripL (s : List Char) : List Char :=
  ((s.dropWhile pyIsSpace).reverse.dropWhile pyIsSpace).reverse

/-- `str.strip()` on a `String`. -/
def pyStrip (s : String) : String := ⟨pyStripL s.data⟩

/-- `str.isdigit()`: nonempty and all characters are digits (ASCII input). -/
def pyIsDigitStr (s : String) : Bool := !s.data.isEmpty && s.data.all pyIsDigit

/-- Helper for `str.split()`: accumulate the current (reversed) token. -/
def pySplitWsAux : List Char → List Char → List (List Char)
  | [], acc => if acc.isEmpty then [] else [acc.reverse]
  | c :: r, acc =>
      if pyIsSpace c then
        if acc.isEmpty then pySplitWsAux r [] else acc.reverse :: pySplitWsAux r []
      else pySplitWsAux r (c :: acc)

/-- `str.split()` with no argument: split on whitespace runs, dropping
empty pieces. -/
def pySplitWsL (s : List Char) : List (List Char) :=
  pySplitWsAux s []

/-- `str.split()` on a `String`, returning `String` tokens. -/
def pySplitWs (s : String) : List String :=
  (pySplitWsL s.data).map (fun l => ⟨l⟩)

/-- `str.split(sep)` for a one-character separator (keeps empty pieces),
as in Python `"a,,b".split(',') = ["a","","b"]`. -/
def pySplitCharL (sep : Char) (s : List Char) : List (List Char) :=
  match s with
  | [] => [[]]
  | c :: rest =>
      if c = sep then [] :: pySplitCharL sep rest
      else
        match pySplitCharL sep rest with
        | [] => [[c]]
        | t :: ts => (c :: t) :: ts

/-- `str.split(sep)` on a `String`. -/
def pySplitChar (sep : Char) (s : String) : List String :=
  (pySplitCharL sep s.data).map (fun l => ⟨l⟩)

/-- Substring containment, Python `needle in haystack`, on lists. -/
def pyContainsL (haystack needle : List Char) : Bool :=
  (List.range (haystack.length + 1)).any
    (fun i => (haystack.drop i).take needle.length = needle)

/-- Substring containment on `String`s. -/
def pyContains (haystack needle : String) : Bool :=
  pyContainsL haystack.data needle.data

/-- `str.startswith` on lists. -/
def pyStartsWith (s pre : List Char) : Bool := s.take pre.length = pre

/-- Code-point lexicographic comparison, Python's `str` ordering
(`"ab" ≤ "b"`, a proper prefix is smaller).  Defined directly on the
character list so the kernel can evaluate it. -/
def lexLe : List Char → List Char → Bool
  | [], _ => true
  | _ :: _, [] => false
  | a :: as, b :: bs =>
      if a < b then true else if b < a then false else lexLe as bs

/-- Python `≤` on strings. -/
def strLe (a b : String) : Bool := lexLe a.data b.data

/-- Python `min` of two strings (ties keep the first). -/
def pyMinStr (a b : String) : String := if strLe a b then a else b

/-- Python `max` of two strings (ties keep the first). -/
def pyMaxStr (a b : String) : String := if strLe b a then a else b

/-- The trailing maximal run satisfying `p` is dropped
(`re.sub(p+"$","",s)` for a character class `p`). -/
def dropTrailingWhile (p : Char → Bool) (s : List Char) : List Char :=
  (s.reverse.dropWhile p).reverse

/-- Render a natural number in decimal (fuel-structured so the kernel can
evaluate it; `fuel ≥ n` suffices since `n / 10 < n` for `n ≥ 10`). -/
def natDigitsAux : Nat → Nat → List Char
  | 0, n => [Char.ofNat (48 + n % 10)]
  | fuel + 1, n =>
      if n < 10 then [Char.ofNat (48 + n)]
      else natDigitsAux fuel (n / 10) ++ [Char.ofNat (48 + n % 10)]

/-- Python `str(n)` / f-string formatting of a nonnegative int. -/
def natDigits (n : Nat) : List Char := natDigitsAux n n

def natStr (n : Nat) : String := ⟨natDigits n⟩

/-- Parse a digit character. -/
def digitVal (c : Char) : Nat := c.toNat - 48

/-- Parse a digit string (all characters known to be digits) to a `Nat`,
Python `int(s)` on a digit string. -/
def digitsToNat (s : List Char) : Nat :=
  s.foldl (fun acc c => 10 * acc + digitVal c) 0

/-! ## The complexity step function

`src/llm/llama3.2_3b.py` lines 267–278 (and identically lines 349–360):
`kompleksitas` is recomputed from the task count alone. -/

/-- The complexity step function of `post_process_result` /
`merge_and_group_by_person` (`llama3.2_3b.py` 269–278, 351–360). -/
def kompleksitasOf (taskCount : Nat) : Nat :=
  if taskCount ≥ 15 then 5
  else if taskCount ≥ 10 then 4
  else if taskCount ≥ 5 then 3
  else if taskCount ≥ 2 then 2
  else 1

/-! ## CPython `strptime` embedding

`try_parse_date` (`ScanDocument.py` 36–81) calls `datetime.strptime` on a
fixed list of formats.  We embed CPython's `_strptime` for exactly the
directives those formats use, with CPython's token regexes:
`%y = \d\d`, `%Y = \d\d\d\d`, `%m = 1[0-2]|0[1-9]|[1-9]`,
`%d = 3[01]|[12]\d|0[1-9]|[1-9]`, `%b`/`%B`/`%a`/`%A` = case-insensitive
name alternation, literal characters matched verbatim, whitespace runs in
the format matching `\s+`; the whole input must be consumed.  Alternation
candidates are tried in the regex's written order with backtracking. -/

/-- Characters written by code point to satisfy source-encoding limits:
ASCII apostrophe, backquote, the curly apostrophe U+2019, bullet U+2022. -/
def aposChar : Char := Char.ofNat 39
def backquoteChar : Char := Char.ofNat 96
def curlyAposChar : Char := Char.ofNat 8217
def bulletChar : Char := Char.ofNat 8226

/-- The fields `strptime` extracts for a pure date; CPython defaults are
year 1900, month 1, day 1 (all our formats set all three). -/
structure DateParts where
  year : Nat := 1900
  month : Nat := 1
  day : Nat := 1
deriving DecidableEq, Repr

/-- One compiled element of a `strptime` format. -/
inductive FmtItem where
  | lit (c : Char)
  | ws
  | dY | dy | dm | dd | db | dB | da | dA
deriving DecidableEq, Repr

/-- Compile a format string: `%X` directives, whitespace (CPython replaces
a whitespace run in the format by one regex `\s+`; none of the formats in
this file contains two adjacent whitespace characters, so compiling each
whitespace character to one `\s+` item is equivalent for them), literals. -/
def compileFormat : List Char → List FmtItem
  | [] => []
  | '%' :: c :: rest =>
      (if c = 'Y' then FmtItem.dY
       else if c = 'y' then FmtItem.dy
       else if c = 'm' then FmtItem.dm
       else if c = 'd' then FmtItem.dd
       else if c = 'b' then FmtItem.db
       else if c = 'B' then FmtItem.dB
       else if c = 'a' then FmtItem.da
       else if c = 'A' then FmtItem.dA
       else FmtItem.lit c) :: compileFormat rest
  | c :: rest =>
      (if pyIsSpace c then FmtItem.ws else FmtItem.lit c) :: compileFormat rest

/-- Candidate parses `(value, rest)` of a regex alternation, in the
alternation's written order (regex backtracking tries them left to right). -/
abbrev Cands := List (Nat × List Char)

/-- CPython `%m` regex `1[0-2]|0[1-9]|[1-9]`. -/
def monthCands (s : List Char) : Cands :=
  (match s with
   | c1 :: c2 :: r =>
       if c1 = '1' && ('0' ≤ c2 && c2 ≤ '2') then [(10 + digitVal c2, r)] else []
   | _ => []) ++
  (match s with
   | c1 :: c2 :: r =>
       if c1 = '0' && ('1' ≤ c2 && c2 ≤ '9') then [(digitVal c2, r)] else []
   | _ => []) ++
  (match s with
   | c1 :: r => if '1' ≤ c1 && c1 ≤ '9' then [(digitVal c1, r)] else []
   | _ => [])

/-- CPython `%d` regex `3[01]|[12]\d|0[1-9]|[1-9]`. -/
def dayCands (s : List Char) : Cands :=
  (match s with
   | c1 :: c2 :: r =>
       if c1 = '3' && ('0' ≤ c2 && c2 ≤ '1') then [(30 + digitVal c2, r)] else []
   | _ => []) ++
  (match s with
   | c1 :: c2 :: r =>
       if ('1' ≤ c1 && c1 ≤ '2') && pyIsDigit c2 then
         [(10 * digitVal c1 + digitVal c2, r)]
       else []
   | _ => []) ++
  (match s with
   | c1 :: c2 :: r =>
       if c1 = '0' && ('1' ≤ c2 && c2 ≤ '9') then [(digitVal c2, r)] else []
   | _ => []) ++
  (match s with
   | c1 :: r => if '1' ≤ c1 && c1 ≤ '9' then [(digitVal c1, r)] else []
   | _ => [])

/-- Exactly `k` digits (`%y` with `k = 2`, `%Y` with `k = 4`). -/
def digitsCands (k : Nat) (s : List Char) : Cands :=
  let pre := s.take k
  if pre.length = k && pre.all pyIsDigit then [(digitsToNat pre, s.drop k)] else []

/-- CPython 2-digit year pivot: `%y ≤ 68` is 20xx, `≥ 69` is 19xx. -/
def y2kPivot (v : Nat) : Nat := if v ≤ 68 then 2000 + v else 1900 + v

/-- Case-insensitive name alternation (`%b`, `%B`, `%a`, `%A`); CPython
orders the alternation by decreasing name length. -/
def nameCands (names : List (List Char × Nat)) (s : List Char) : Cands :=
  names.filterMap (fun p =>
    if pyLowerL (s.take p.1.length) = p.1 then some (p.2, s.drop p.1.length)
    else none)

def monthAbbrevs : List (List Char × Nat) :=
  [("jan".data, 1), ("feb".data, 2), ("mar".data, 3), ("apr".data, 4),
   ("may".data, 5), ("jun".data, 6), ("jul".data, 7), ("aug".data, 8),
   ("sep".data, 9), ("oct".data, 10), ("nov".data, 11), ("dec".data, 12)]

def monthFulls : List (List Char × Nat) :=
  [("september".data, 9), ("february".data, 2), ("november".data, 11),
   ("december".data, 12), ("january".data, 1), ("october".data, 10),
   ("august".data, 8), ("march".data, 3), ("april".data, 4),
   ("june".data, 6), ("july".data, 7), ("may".data, 5)]

def weekdayAbbrevs : List (List Char × Nat) :=
  [("mon".data, 0), ("tue".data, 1), ("wed".data, 2), ("thu".data, 3),
   ("fri".data, 4), ("sat".data, 5), ("sun".data, 6)]

def weekdayFulls : List (List Char × Nat) :=
  [("wednesday".data, 2), ("thursday".data, 3), ("saturday".data, 5),
   ("tuesday".data, 1), ("monday".data, 0), ("friday".data, 4),
   ("sunday".data, 6)]

/-- Rests after consuming one-or-more whitespace (`\s+`), greedy first. -/
def wsRests (s : List Char) : List (List Char) :=
  let k := (s.takeWhile pyIsSpace).length
  (List.range k).map (fun i => s.drop (k - i))

/-- Run a compiled format against the input with backtracking; the whole
input must be consumed (CPython raises unless the regex consumed all of
`data_string`). -/
def runFmt : List FmtItem → DateParts → List Char → Option DateParts
  | [], pd, s => if s.isEmpty then some pd else none
  | FmtItem.lit c :: rest, pd, s =>
      match s with
      | c' :: r => if c' = c then runFmt rest pd r else none
      | [] => none
  | FmtItem.ws :: rest, pd, s =>
      (wsRests s).findSome? (fun r => runFmt rest pd r)
  | FmtItem.dY :: rest, pd, s =>
      (digitsCands 4 s).findSome? (fun vr => runFmt rest { pd with year := vr.1 } vr.2)
  | FmtItem.dy :: rest, pd, s =>
      (digitsCands 2 s).findSome?
        (fun vr => runFmt rest { pd with year := y2kPivot vr.1 } vr.2)
  | FmtItem.dm :: rest, pd, s =>
      (monthCands s).findSome? (fun vr => runFmt rest { pd with month := vr.1 } vr.2)
  | FmtItem.dd :: rest, pd, s =>
      (dayCands s).findSome? (fun vr => runFmt rest { pd with day := vr.1 } vr.2)
  | FmtItem.db :: rest, pd, s =>
      (nameCands monthAbbrevs s).findSome?
        (fun vr => runFmt rest { pd with month := vr.1 } vr.2)
  | FmtItem.dB :: rest, pd, s =>
      (nameCands monthFulls s).findSome?
        (fun vr => runFmt rest { pd with month := vr.1 } vr.2)
  | FmtItem.da :: rest, pd, s =>
      (nameCands weekdayAbbrevs s).findSome? (fun vr => runFmt rest pd vr.2)
  | FmtItem.dA :: rest, pd, s =>
      (nameCands weekdayFulls s).findSome? (fun vr => runFmt rest pd vr.2)

/-- Gregorian leap year. -/
def isLeapYear (y : Nat) : Bool := y % 4 = 0 && (y % 100 ≠ 0 || y % 400 = 0)

def daysInMonth (y m : Nat) : Nat :=
  if m = 2 then (if isLeapYear y then 29 else 28)
  else if m = 4 || m = 6 || m = 9 || m = 11 then 30
  else 31

/-- `datetime(year, month, day)` construction succeeds
(`MINYEAR = 1`, `MAXYEAR = 9999`; the month range is already enforced by
the `%m`/`%b` token). -/
def validDateParts (pd : DateParts) : Bool :=
  1 ≤ pd.year && pd.year ≤ 9999 && 1 ≤ pd.month && pd.month ≤ 12 &&
    1 ≤ pd.day && pd.day ≤ daysInMonth pd.year pd.month

def digitCharOf (a : Nat) : Char := Char.ofNat (48 + a % 10)

def pad2 (n : Nat) : List Char := [digitCharOf (n / 10 % 10), digitCharOf n]

def pad4 (n : Nat) : List Char :=
  [digitCharOf (n / 1000 % 10), digitCharOf (n / 100 % 10),
   digitCharOf (n / 10 % 10), digitCharOf n]

/-- `dt.strftime("%Y-%m-%d")`, zero-padded.  (CPython delegates `%Y` to the
platform; for years ≥ 1000 — the only years reachable from the formats the
code uses — all platforms agree with this zero-padded form.) -/
def isoOfDateParts (pd : DateParts) : String :=
  ⟨pad4 pd.year ++ '-' :: (pad2 pd.month ++ '-' :: pad2 pd.day)⟩

/-- `datetime.strptime(s, fmt)` followed by `strftime("%Y-%m-%d")`,
`None` when `strptime` raises. -/
def strptimeIso (fmt : String) (s : List Char) : Option String :=
  match runFmt (compileFormat fmt.data) {} s with
  | none => none
  | some pd => if validDateParts pd then some (isoOfDateParts pd) else none

/-! ## `try_parse_date` (`ScanDocument.py` 36–81) -/

/-- `DATE_FORMAT_TRIES` (`ScanDocument.py` 26–33).  The fourth format
contains an apostrophe, so it is written as an explicit character list. -/
def DATE_FORMAT_TRIES : List String :=
  ["%m/%d/%Y", "%m/%d/%y", "%Y-%m-%d",
   ⟨['%', 'b', ' ', '%', 'd', ',', ' ', aposChar, '%', 'y']⟩,
   "%b %d, %Y", "%B %d, %Y",
   "%a %m/%d/%y", "%A %m/%d/%y",
   "%a %b %d, %Y", "%A %b %d, %Y",
   "%a %m/%d/%Y", "%A %m/%d/%Y"]

/-- `re.sub(r'^[A-Za-z]{3,}\s+', '', s)`: drop a leading alphabetic word of
at least three letters together with the following whitespace run. -/
def stripWeekdayPrefix (s : List Char) : List Char :=
  let al := s.takeWhile pyIsAlpha
  let rest := s.dropWhile pyIsAlpha
  if al.length ≥ 3 && !(rest.takeWhile pyIsSpace).isEmpty then
    rest.dropWhile pyIsSpace
  else s

/-- Maximal-munch digit run split. -/
def digitRun (s : List Char) : List Char × List Char :=
  (s.takeWhile pyIsDigit, s.dropWhile pyIsDigit)

/-- The single leftmost result of
`re.match(r'([A-Za-z]+)\s+(\d{1,2})[,\s]*\'?(\d{2,4})', s)`
(`ScanDocument.py` 57): the groups `(mon, day, yr)`.  Backtracking — the
day group prefers two digits, the `[,\s]*` run is greedy, the optional
apostrophe prefers presence — resolves only regex failures (the year
group needs at least two digits); the year group takes at most four
digits and has no continuation to fail.  The leading `([A-Za-z]+)\s+`
pair is committed maximal-munch: shortening either run puts a
non-matching character under the next atom. -/
def monthDayYearMatch (s : List Char) :
    Option (List Char × List Char × Nat) :=
  let mon := s.takeWhile pyIsAlpha
  let afterMon := s.dropWhile pyIsAlpha
  if mon.isEmpty || (afterMon.takeWhile pyIsSpace).isEmpty then none
  else
    let s1 := afterMon.dropWhile pyIsSpace
    let dayRun := (s1.takeWhile pyIsDigit).take 2
    (List.range dayRun.length).findSome? (fun i =>
      let day := dayRun.take (dayRun.length - i)
      let s2 := s1.drop day.length
      let sepMax := (s2.takeWhile (fun c => c = ',' || pyIsSpace c)).length
      (List.range (sepMax + 1)).findSome? (fun j =>
        let s3 := s2.drop (sepMax - j)
        [1, 0].findSome? (fun (ap : Nat) =>
          let s4 := if ap = 1 then
              (match s3 with
               | c :: r => if c = aposChar then some r else none
               | [] => none)
            else some s3
          match s4 with
          | none => none
          | some s5 =>
            let yrRun := (s5.takeWhile pyIsDigit).take 4
            if yrRun.length < 2 then none
            else some (mon, day, digitsToNat yrRun))))

/-- Fallback 1 (`ScanDocument.py` 57–67): `re.match` commits to its single
result; then `strptime(f"{mon} {day} {yr}", "%b %d %Y")` runs once with
2-digit years raised by 2000, and if it raises, the `except` abandons
this fallback — a `strptime` failure never re-enters the regex
backtracking. -/
def monthDayYearFallback (s : List Char) : Option String :=
  match monthDayYearMatch s with
  | none => none
  | some (mon, day, yr) =>
    let yr' := if yr < 100 then yr + 2000 else yr
    strptimeIso "%b %d %Y" (mon ++ ' ' :: (day ++ ' ' :: natDigits yr'))

/-- Fallback 2 (`ScanDocument.py` 70–79):
`re.match(r'(\d{1,2})/(\d{1,2})/(\d{2,4})$', s)`; a two-character year
string is replaced by `int(yy) + 2000`, then
`strptime(f"{mm}/{dd}/{yy}", "%m/%d/%Y")`. -/
def slashFallback (s : List Char) : Option String :=
  let (mm, r1) := digitRun s
  if mm.isEmpty || mm.length > 2 then none
  else match r1 with
    | '/' :: r2 =>
      let (dd, r3) := digitRun r2
      if dd.isEmpty || dd.length > 2 then none
      else match r3 with
        | '/' :: r4 =>
          let (yy, r5) := digitRun r4
          if !r5.isEmpty || yy.length < 2 || yy.length > 4 then none
          else
            let yy' := if yy.length = 2 then natDigits (digitsToNat yy + 2000) else yy
            strptimeIso "%m/%d/%Y" (mm ++ '/' :: (dd ++ '/' :: yy'))
        | _ => none
    | _ => none

/-- The cleanup chain of `try_parse_date` (`ScanDocument.py` 42–47)
applied after the initial strip: drop trailing `?`/`•`, re-strip, drop a
leading weekday-like word, replace curly apostrophes and backquotes. -/
def dateCleanup (s1 : List Char) : List Char :=
  let s2 := pyStripL (dropTrailingWhile (fun c => c = '?' || c = bulletChar) s1)
  let s3 := stripWeekdayPrefix s2
  s3.map (fun c => if c = curlyAposChar || c = backquoteChar then aposChar else c)

/-- `try_parse_date` (`ScanDocument.py` 36–81). -/
def tryParseDate (s0 : String) : Option String :=
  let s1 := pyStripL s0.data
  if s1.isEmpty then none
  else
    let s4 := dateCleanup s1
    match DATE_FORMAT_TRIES.findSome? (fun fmt => strptimeIso fmt s4) with
    | some r => some r
    | none =>
      match monthDayYearFallback s4 with
      | some r => some r
      | none => slashFallback s4

/-- The character class an `M/D/Y` token is drawn from: ASCII digits and
the slash. -/
def mdyChar (c : Char) : Bool := pyIsDigit c || c = '/'

/-- Decimal rendering of a 1–2 digit date component, optionally
zero-padded (the flag only affects values below 10). -/
def compRender (padded : Bool) (n : Nat) : List Char :=
  if n < 10 then (if padded then ['0', digitCharOf n] else [digitCharOf n])
  else [digitCharOf (n / 10), digitCharOf n]

/-- The rendered `M/D/<year>` token: month and day each with or without a
leading zero, followed by the year digits. -/
def mdyToken (pm : Bool) (m : Nat) (pdg : Bool) (d : Nat)
    (ytail : List Char) : List Char :=
  compRender pm m ++ '/' :: (compRender pdg d ++ '/' :: ytail)

/-! ## `is_valid_resource_name` (`ScanDocument.py` 84–126) -/

/-- The stoplist of `is_valid_resource_name` (`ScanDocument.py` 111–114). -/
def excludeTokens : List String :=
  ["page", "task", "external", "tasks", "manual", "finish-only",
   "split", "milestone", "duration-only", "deadline", "project",
   "summary", "inactive", "rollup", "progress", "start-only",
   "date", "finish", "start", "duration", "predecessor", "id"]

/-- `re.match(r'\d{1,2}/\d{1,2}/\d{2,4}', token)`: a prefix shaped like a
numeric date (trailing characters unconstrained; the bounded quantifiers
with a following `/` reduce to maximal-munch runs of the right length). -/
def matchesDateShape (t : List Char) : Bool :=
  let (r1, s1) := digitRun t
  if r1.isEmpty || r1.length > 2 then false
  else match s1 with
    | '/' :: s2 =>
      let (r2, s3) := digitRun s2
      if r2.isEmpty || r2.length > 2 then false
      else match s3 with
        | '/' :: s4 => (digitRun s4).1.length ≥ 2
        | _ => false
    | _ => false

def monthPrefixNames : List (List Char) :=
  ["jan".data, "feb".data, "mar".data, "apr".data, "may".data, "jun".data,
   "jul".data, "aug".data, "sep".data, "oct".data, "nov".data, "dec".data]

def weekdayPrefixNames : List (List Char) :=
  ["mon".data, "tue".data, "wed".data, "thu".data, "fri".data, "sat".data,
   "sun".data]

/-- `re.match(r'^[SMTWRF]{1,2}(\s+|$)', token)` (case-sensitive): one or
two calendar-day letters followed by whitespace or the end; the greedy
two-letter attempt is tried first, then one letter. -/
def calendarDayLabel (t : List Char) : Bool :=
  let inCls := fun c =>
    c = 'S' || c = 'M' || c = 'T' || c = 'W' || c = 'R' || c = 'F'
  match t with
  | [] => false
  | [c1] => inCls c1
  | c1 :: c2 :: rest =>
      inCls c1 &&
        ((inCls c2 && (rest.isEmpty || pyIsSpace (rest.headD ' '))) ||
          pyIsSpace c2)

/-- `is_valid_resource_name` (`ScanDocument.py` 84–126). -/
def isValidResourceName (token0 : String) : Bool :=
  let t := pyStripL token0.data
  if t.isEmpty then false
  else if !t.isEmpty && t.all pyIsDigit then false
  else if matchesDateShape t then false
  else if monthPrefixNames.any (fun n => pyLowerL (t.take 3) = n) then false
  else if weekdayPrefixNames.any (fun n => pyLowerL (t.take 3) = n) then false
  else if calendarDayLabel t then false
  else if excludeTokens.contains (pyLower ⟨t⟩) then false
  else if !t.any pyIsAlpha then false
  else if t.length < 2 then false
  else true

/-! ## `_parse_task_line` (`ScanDocument.py` 307–393)

The line grammar regex (line 317, `re.IGNORECASE`):
`^(.+?)\s+([\d.]+\s+days?\??)\s+((?:[A-Za-z]{3}\s+)?\d{1,2}/\d{1,2}/\d{2,4})\s+((?:[A-Za-z]{3}\s+)?\d{1,2}/\d{1,2}/\d{2,4})\s*(.*)$`.
The lazy group 1 tries split points left to right; after it every
quantifier's extent is forced (each bounded digit run is followed by a
non-digit delimiter and each `\s+` by a non-space), so the remainder of
the match is deterministic; the two optional weekday prefixes are mutually
exclusive with a digit start, so no backtracking crosses groups. -/

/-- `[\d.]+` — digits-and-dots run, maximal. -/
def numRun (s : List Char) : List Char × List Char :=
  (s.takeWhile (fun c => pyIsDigit c || c = '.'),
   s.dropWhile (fun c => pyIsDigit c || c = '.'))

/-- Whitespace run split. -/
def wsRun (s : List Char) : List Char × List Char :=
  (s.takeWhile pyIsSpace, s.dropWhile pyIsSpace)

/-- Case-insensitive character match (the regex is compiled with
`re.IGNORECASE`). -/
def ciChar (c lit : Char) : Bool := pyLowerChar c = lit

/-- `[\d.]+\s+days?\??` with the trailing `\s+` of the outer pattern:
returns (captured duration text, rest after the separator whitespace).
The optional `s` and `?` are greedy; each alternative ends at the same
whitespace requirement, so greedy matching is exact. -/
def durationTok (s : List Char) : Option (List Char × List Char) :=
  let (num, s1) := numRun s
  if num.isEmpty then none
  else
    let (w, s2) := wsRun s1
    if w.isEmpty then none
    else match s2 with
      | c1 :: c2 :: c3 :: s3 =>
        if ciChar c1 'd' && ciChar c2 'a' && ciChar c3 'y' then
          let (sTok, s4) :=
            match s3 with
            | c4 :: s4' => if ciChar c4 's' then ([c4], s4') else ([], s3)
            | [] => ([], s3)
          let (qTok, s5) :=
            match s4 with
            | c5 :: s5' => if c5 = '?' then ([c5], s5') else ([], s4)
            | [] => ([], s4)
          let (w2, s6) := wsRun s5
          if w2.isEmpty then none
          else some (num ++ w ++ c1 :: c2 :: c3 :: (sTok ++ qTok), s6)
        else none
      | _ => none

/-- `\d{1,2}/\d{1,2}/\d{2,4}` where the date is followed by `cut` (either
a required whitespace or nothing): returns (captured date text, rest).
`lastFree` selects group 4's year, which is followed by `\s*(.*)$` and so
takes up to four digits with no further constraint. -/
def dateDigits (lastFree : Bool) (s : List Char) : Option (List Char × List Char) :=
  let (r1, s1) := digitRun s
  if r1.isEmpty || r1.length > 2 then none
  else match s1 with
    | '/' :: s2 =>
      let (r2, s3) := digitRun s2
      if r2.isEmpty || r2.length > 2 then none
      else match s3 with
        | '/' :: s4 =>
          let (ry, s5) := digitRun s4
          if lastFree then
            if ry.length < 2 then none
            else
              let yTake := ry.take 4
              some (r1 ++ '/' :: r2 ++ '/' :: yTake, ry.drop 4 ++ s5)
          else
            if ry.length < 2 || ry.length > 4 then none
            else some (r1 ++ '/' :: r2 ++ '/' :: ry, s5)
        | _ => none
    | _ => none

/-- `(?:[A-Za-z]{3}\s+)?\d{1,2}/\d{1,2}/\d{2,4}`: the optional weekday
prefix is tried first; it succeeds only on three letters plus whitespace,
which is mutually exclusive with the digit start of the bare date. -/
def dateTok (lastFree : Bool) (s : List Char) : Option (List Char × List Char) :=
  match s with
  | c1 :: c2 :: c3 :: s3 =>
    if pyIsAlpha c1 && pyIsAlpha c2 && pyIsAlpha c3 then
      let (w, s4) := wsRun s3
      if w.isEmpty then none
      else match dateDigits lastFree s4 with
        | some (cap, rest) => some (c1 :: c2 :: c3 :: (w ++ cap), rest)
        | none => none
    else match dateDigits lastFree s with
      | some capRest => some capRest
      | none => none
  | _ =>
    match dateDigits lastFree s with
    | some capRest => some capRest
    | none => none

/-- The five captured groups of the task-line regex. -/
structure TaskLineGroups where
  name : List Char
  duration : List Char
  startTok : List Char
  finishTok : List Char
  remaining : List Char
deriving DecidableEq, Repr

/-- Try the regex with group 1 fixed to the first `i + 1` characters. -/
def taskLineAt (s : List Char) (i : Nat) : Option TaskLineGroups :=
  let name := s.take (i + 1)
  let rest0 := s.drop (i + 1)
  let (w1, rest1) := wsRun rest0
  if name.length ≠ i + 1 || w1.isEmpty then none
  else match durationTok rest1 with
    | none => none
    | some (dur, rest2) =>
      match dateTok false rest2 with
      | none => none
      | some (startCap, rest3) =>
        let (w3, rest4) := wsRun rest3
        if w3.isEmpty then none
        else match dateTok true rest4 with
          | none => none
          | some (finCap, rest5) =>
            let (_, rest6) := wsRun rest5
            some ⟨name, dur, startCap, finCap, rest6⟩

/-- The full regex match: lazy group 1, so the least split point wins. -/
def taskLineMatch (s : List Char) : Option TaskLineGroups :=
  (List.range s.length).findSome? (fun i => taskLineAt s i)

/-- Python float of a `[\d.]+` string (`float(m.group(1))`): at most one
dot and at least one digit; modeled as an exact rational. -/
def floatOfNumRun (s : List Char) : Option ℚ :=
  match pySplitCharL '.' s with
  | [ip] => if ip.isEmpty then none else some (digitsToNat ip : ℚ)
  | [ip, fp] =>
      if ip.isEmpty && fp.isEmpty then none
      else some ((digitsToNat ip : ℚ) + (digitsToNat fp : ℚ) / ((10 : ℚ) ^ fp.length))
  | _ => none

/-- The duration value of `_normalize_task` (`ScanDocument.py` 396–406):
`re.search(r'([\d.]+)', dur)` takes the first digits-and-dots run, and a
failing `float()` falls back to `0.0`. -/
def durationValue (dur : List Char) : ℚ :=
  let afterPrefix := dur.dropWhile (fun c => !(pyIsDigit c || c = '.'))
  let (run, _) := numRun afterPrefix
  if run.isEmpty then 0 else (floatOfNumRun run).getD 0

structure Duration where
  value : ℚ
  unit : String
  raw : String
deriving DecidableEq, Repr

/-- A task before expansion (`resources` plural), after `_normalize_task`. -/
structure PreTask where
  id : String
  task_name : String
  duration : Duration
  start_date : String
  finish_date : String
  predecessors : List String
  resources : List String
deriving DecidableEq, Repr

/-- A task after expansion (`resource` singular). -/
structure ExpTask where
  id : String
  task_name : String
  duration : Duration
  start_date : String
  finish_date : String
  predecessors : List String
  resource : String
deriving DecidableEq, Repr

/-- Trailing-token classification (`ScanDocument.py` 343–372): digits are
predecessors; tokens passing `is_valid_resource_name` are resources, with
comma-joined tokens split and each part revalidated. -/
def classifyTrailing (remaining : List Char) : List String × List String :=
  (pySplitWsL remaining).foldl
    (fun acc tok =>
      let token := pyStripL tok
      if token.isEmpty then acc
      else if pyIsDigitStr ⟨token⟩ then (acc.1 ++ [(⟨token⟩ : String)], acc.2)
      else if isValidResourceName ⟨token⟩ then
        if token.contains ',' then
          let subs := (pySplitCharL ',' token).filterMap (fun r =>
            let r' := pyStripL r
            if r'.isEmpty then none else some r')
          (acc.1, acc.2 ++ (subs.filterMap (fun r =>
            if isValidResourceName ⟨r⟩ then some (⟨r⟩ : String) else none)))
        else (acc.1, acc.2 ++ [(⟨token⟩ : String)])
      else acc)
    ([], [])

/-- Case-insensitive first-seen deduplication of resources
(`ScanDocument.py` 374–381). -/
def dedupResources (rs : List String) : List String :=
  (rs.foldl
    (fun acc r =>
      let rClean := pyStrip r
      if !rClean.data.isEmpty && !acc.2.contains (pyLower rClean) then
        (acc.1 ++ [rClean], acc.2 ++ [pyLower rClean])
      else acc)
    ([], [])).1

/-- `_parse_task_line` (`ScanDocument.py` 307–393) followed by
`_normalize_task` (395–429). -/
def parseTaskLine (taskId : String) (remainder : String) : Option PreTask :=
  match taskLineMatch remainder.data with
  | none => none
  | some g =>
    let (preds, ress) := classifyTrailing (pyStripL g.remaining)
    let uniqueRs := dedupResources ress
    let durRaw := pyStripL g.duration
    let sdRaw := pyStrip ⟨g.startTok⟩
    let fdRaw := pyStrip ⟨g.finishTok⟩
    some
      { id := pyStrip taskId
        task_name := pyStrip ⟨g.name⟩
        duration := ⟨durationValue durRaw, "days", ⟨durRaw⟩⟩
        start_date := (tryParseDate sdRaw).getD sdRaw
        finish_date := (tryParseDate fdRaw).getD fdRaw
        predecessors := preds
        resources := uniqueRs }

/-! ## `_parse_text_to_tasks` (`ScanDocument.py` 257–305) -/

/-- Is the character at index `i` a regex word character (`\w`)? -/
def isWordCharAt (s : List Char) (i : Nat) : Bool :=
  match s.drop i with
  | c :: _ => pyIsWord c
  | [] => false

/-- A `\b` word boundary holds before index `i` (our searched words start
with word characters, so only the left side needs checking). -/
def boundaryAt (s : List Char) (i : Nat) : Bool :=
  i = 0 || !isWordCharAt s (i - 1)

/-- Exact slice match at index `i`. -/
def sliceAt (s : List Char) (i : Nat) (w : List Char) : Bool :=
  (s.drop i).take w.length = w

/-- Case-insensitive slice match at index `i` (`w` given lowercase). -/
def ciSliceAt (s : List Char) (i : Nat) (w : List Char) : Bool :=
  pyLowerL ((s.drop i).take w.length) = w

/-- Length of the whitespace run starting at index `i`. -/
def wsLenFrom (s : List Char) (i : Nat) : Nat :=
  ((s.drop i).takeWhile pyIsSpace).length

/-- `re.search(r'\bID\b.*\bTask\s*Name\b', ln, re.IGNORECASE)`
(`ScanDocument.py` 265): a word `ID` somewhere, and at or after its end a
word-bounded `Task`, optional whitespace, `Name`, word-bounded. -/
def headerLine (s : List Char) : Bool :=
  (List.range (s.length + 1)).any (fun i =>
    boundaryAt s i && ciSliceAt s i "id".data && !isWordCharAt s (i + 2) &&
      (List.range (s.length + 1)).any (fun j =>
        i + 2 ≤ j && boundaryAt s j && ciSliceAt s j "task".data &&
          (ciSliceAt s (j + 4 + wsLenFrom s (j + 4)) "name".data &&
            !isWordCharAt s (j + 4 + wsLenFrom s (j + 4) + 4))))

/-- Match `w₁\s+w₂\s+…` exactly at index `i`, returning the end index. -/
def seqFrom (s : List Char) (i : Nat) : List (List Char) → Option Nat
  | [] => some i
  | w :: rest =>
      if sliceAt s i w then
        match rest with
        | [] => some (i + w.length)
        | _ :: _ =>
          let k := wsLenFrom s (i + w.length)
          if k = 0 then none else seqFrom s (i + w.length + k) rest
      else none

/-- `re.search(r'\bw₁\s+w₂\s+…\b', ln)` (case-sensitive), as used for the
`Task External Tasks` and `Milestone Inactive` legend rows
(`ScanDocument.py` 279–280). -/
def wordSeqSearch (ws : List (List Char)) (s : List Char) : Bool :=
  (List.range (s.length + 1)).any (fun i =>
    boundaryAt s i &&
      (match seqFrom s i ws with
       | some e => !isWordCharAt s e
       | none => false))

/-- `re.search(r'^\d+\s+\d+\s+\d+\s+\d+', ln)` (`ScanDocument.py` 281). -/
def dateHeaderRow (s : List Char) : Bool :=
  let (d1, s1) := digitRun s
  let (w1, s2) := wsRun s1
  let (d2, s3) := digitRun s2
  let (w2, s4) := wsRun s3
  let (d3, s5) := digitRun s4
  let (w3, s6) := wsRun s5
  let (d4, _) := digitRun s6
  !d1.isEmpty && !w1.isEmpty && !d2.isEmpty && !w2.isEmpty &&
    !d3.isEmpty && !w3.isEmpty && !d4.isEmpty

/-- `re.match(r'^(\d{1,3})\s+(.+)$', ln)` (`ScanDocument.py` 285):
a 1–3 digit id, whitespace, nonempty remainder. -/
def idLineMatch (s : List Char) : Option (List Char × List Char) :=
  let (r, s1) := digitRun s
  if r.isEmpty || r.length > 3 then none
  else
    let (w, s2) := wsRun s1
    if w.isEmpty || s2.isEmpty then none else some (r, s2)

/-- `text.splitlines()` for newline-separated text (a trailing final
newline yields an extra empty line, which the blank-line skip discards). -/
def splitLines (text : String) : List (List Char) :=
  pySplitCharL '\n' text.data

/-- `_parse_text_to_tasks` (`ScanDocument.py` 257–305): find the header
row, then per candidate line skip footers/legends and parse task lines. -/
def parseTextToTasks (text : String) : List PreTask :=
  let lines := splitLines text
  let startIdx :=
    match lines.findIdx? headerLine with
    | some i => i + 1
    | none => 0
  (lines.drop startIdx).filterMap (fun ln =>
    if (pyStripL ln).isEmpty then none
    else if pyStartsWith (pyStripL ln) "Page".data then none
    else if pyContainsL ln "Project:".data then none
    else if wordSeqSearch ["Task".data, "External".data, "Tasks".data] ln then none
    else if wordSeqSearch ["Milestone".data, "Inactive".data] ln then none
    else if dateHeaderRow ln then none
    else
      match idLineMatch ln with
      | none => none
      | some (tid, rem) => parseTaskLine ⟨tid⟩ (pyStrip ⟨rem⟩))

/-! ## `_expand_tasks_by_resource` (`ScanDocument.py` 210–255) -/

/-- The loop body of `_expand_tasks_by_resource` for one task: drop it
when it has no non-empty resource; rewrite a single resource in place;
clone one task per resource otherwise, with the duration and predecessor
list copied per clone (`task["duration"].copy()` /
`task["predecessors"].copy()`). -/
def expandOneTask (task : PreTask) : List ExpTask :=
  match task.resources.filter (fun r =>
      !r.data.isEmpty && !(pyStrip r).data.isEmpty) with
  | [] => []
  | [r] =>
      [⟨task.id, task.task_name, task.duration, task.start_date,
        task.finish_date, task.predecessors, r⟩]
  | r₁ :: r₂ :: rest =>
      (r₁ :: r₂ :: rest).filterMap (fun r =>
        if r.data.isEmpty || (pyStrip r).data.isEmpty then none
        else
          some ⟨task.id, task.task_name, task.duration, task.start_date,
            task.finish_date, task.predecessors, r⟩)

/-- `_expand_tasks_by_resource` (`ScanDocument.py` 210–255). -/
def expandTasksByResource (tasks : List PreTask) : List ExpTask :=
  tasks.flatMap expandOneTask

/-- `extract_from_pdf` after text extraction (`ScanDocument.py` 151–183):
parse, keep only tasks with resources, expand, and keep only expanded
tasks with a non-blank `resource`. -/
def extractTasksFromText (text : String) : List ExpTask :=
  let tasks := parseTextToTasks text
  let withResources := tasks.filter (fun t => !t.resources.isEmpty)
  (expandTasksByResource withResources).filter (fun t =>
    !(pyStrip t.resource).data.isEmpty)

/-! ## `post_process_result` (`llama3.2_3b.py` 227–284) -/

/-- One person entry of the `{"data": [...]}` result shape
(`llama3.2_3b.py`); also the flat entry shape used by the merge. -/
structure PersonEntry where
  fullname : String
  project : String
  start_date : String
  finish_date : String
  total_tasks : Nat
  tasks : List String
  kompleksitas : Nat
deriving DecidableEq, Repr

/-- Python `min` of a nonempty string list (lexicographic). -/
def pyMinOf (d : String) (ds : List String) : String := ds.foldl pyMinStr d

/-- Python `max` of a nonempty string list (lexicographic). -/
def pyMaxOf (d : String) (ds : List String) : String := ds.foldl pyMaxStr d

/-- The canonical tasks of one person: resource matched case-insensitively
against the lowercased fullname (`llama3.2_3b.py` 236–237). -/
def canonicalTasksFor (tasks : List ExpTask) (fullname : String) :
    List ExpTask :=
  tasks.filter (fun t => pyLower t.resource = fullname)

/-- The per-person body of `post_process_result` (`llama3.2_3b.py`
232–282): rebuild every fact field from the canonical tasks whose
`resource` matches the entry's lowercased, stripped `fullname`.  (The
canonical task records carry string date fields, so the `min`/`max` calls
cannot raise and the `except` branch at 257–259 is unreachable.) -/
def postProcessPerson (tasks : List ExpTask) (p : PersonEntry) : PersonEntry :=
  let fullname := pyStrip (pyLower p.fullname)
  let personTasks := canonicalTasksFor tasks fullname
  let startDates := personTasks.map (fun t => t.start_date)
  let finishDates := personTasks.map (fun t => t.finish_date)
  let taskNames := personTasks.map (fun t => pyLower t.task_name)
  let earliestStart :=
    match startDates, finishDates with
    | d :: ds, _ :: _ => pyMinOf d ds
    | _, _ => ""
  let latestFinish :=
    match startDates, finishDates with
    | _ :: _, d :: ds => pyMaxOf d ds
    | _, _ => ""
  { fullname := fullname
    project := pyLower p.project
    start_date := earliestStart
    finish_date := latestFinish
    total_tasks := taskNames.length
    tasks := taskNames
    kompleksitas := kompleksitasOf taskNames.length }

/-- The `{"data": [...]}` result shape. -/
structure LLMResult where
  data : List PersonEntry
deriving DecidableEq, Repr

/-- `post_process_result(result, original_data)` with `original_data`'s
canonical task list passed directly. -/
def postProcessResult (result : LLMResult) (tasks : List ExpTask) : LLMResult :=
  ⟨result.data.map (postProcessPerson tasks)⟩

/-! ## `merge_and_group_by_person` (`llama3.2_3b.py` 291–386) -/

/-- One project summary inside the grouped `{"people": [...]}` shape. -/
structure ProjectSummary where
  project : String
  start_date : String
  finish_date : String
  total_tasks : Nat
  kompleksitas : Nat
  tasks : List String
deriving DecidableEq, Repr

structure PersonRecord where
  fullname : String
  projects : List ProjectSummary
deriving DecidableEq, Repr

structure GroupedData where
  people : List PersonRecord
deriving DecidableEq, Repr

structure FlatData where
  data : List PersonEntry
deriving DecidableEq, Repr

/-- One flattened entry of the existing grouped dataset
(`llama3.2_3b.py` 300–310), lowercasing `fullname` and `project`. -/
def flatOf (fullname : String) (pr : ProjectSummary) : PersonEntry :=
  { fullname := pyLower fullname
    project := pyLower pr.project
    start_date := pr.start_date
    finish_date := pr.finish_date
    total_tasks := pr.total_tasks
    tasks := pr.tasks
    kompleksitas := pr.kompleksitas }

/-- Flatten the existing grouped dataset (`llama3.2_3b.py` 298–310). -/
def flattenExisting (e : GroupedData) : List PersonEntry :=
  e.people.flatMap (fun p => p.projects.map (flatOf p.fullname))

/-- Ingest the new flat data (`llama3.2_3b.py` 313–323), lowercasing
`fullname` and `project`. -/
def ingestNew (n : FlatData) : List PersonEntry :=
  n.data.map (fun p =>
    { p with fullname := pyLower p.fullname, project := pyLower p.project })

/-- The collision body (`llama3.2_3b.py` 330–360): tasks become the sorted
duplicate-free union (`sorted(list(set(existing + entry)))`; `List.dedup`
followed by `insertionSort` produces the same sorted duplicate-free
enumeration), totals and complexity are recomputed, dates take the
min/max over the non-empty ones. -/
def mergeEntry (existing entry : PersonEntry) : PersonEntry :=
  let allTasks := (existing.tasks ++ entry.tasks).dedup
  let sortedTasks := allTasks.insertionSort (fun a b => strLe a b = true)
  let sds := ([existing.start_date, entry.start_date]).filter (fun d => d ≠ "")
  let newStart :=
    match sds with
    | [] => existing.start_date
    | d :: ds => pyMinOf d ds
  let fds := ([existing.finish_date, entry.finish_date]).filter (fun d => d ≠ "")
  let newFinish :=
    match fds with
    | [] => existing.finish_date
    | d :: ds => pyMaxOf d ds
  { existing with
    tasks := sortedTasks
    total_tasks := allTasks.length
    start_date := newStart
    finish_date := newFinish
    kompleksitas := kompleksitasOf allTasks.length }

/-- One step of the `merged_dict` loop (`llama3.2_3b.py` 326–362): a dict
keyed by `(fullname, project)` in insertion order; a collision merges into
the existing entry in place. -/
def insertMerge (d : List PersonEntry) (e : PersonEntry) : List PersonEntry :=
  if d.any (fun x => x.fullname = e.fullname && x.project = e.project) then
    d.map (fun x =>
      if x.fullname = e.fullname && x.project = e.project then mergeEntry x e
      else x)
  else d ++ [e]

def mergedEntries (temp : List PersonEntry) : List PersonEntry :=
  temp.foldl insertMerge []

def toProjectSummary (e : PersonEntry) : ProjectSummary :=
  ⟨e.project, e.start_date, e.finish_date, e.total_tasks, e.kompleksitas,
   e.tasks⟩

/-- One step of the `people_dict` grouping loop (`llama3.2_3b.py`
365–376): a `defaultdict(list)` keyed by `fullname` in insertion order. -/
def groupStep (acc : List (String × List ProjectSummary)) (e : PersonEntry) :
    List (String × List ProjectSummary) :=
  if acc.any (fun kv => kv.1 = e.fullname) then
    acc.map (fun kv =>
      if kv.1 = e.fullname then (kv.1, kv.2 ++ [toProjectSummary e])
      else kv)
  else acc ++ [(e.fullname, [toProjectSummary e])]

/-- The `people_dict` grouping loop (`llama3.2_3b.py` 365–376). -/
def groupByFullname (l : List PersonEntry) :
    List (String × List ProjectSummary) :=
  l.foldl groupStep []

/-- `merge_and_group_by_person` (`llama3.2_3b.py` 291–386).
`sorted(people_dict.items())` compares `(fullname, projects)` tuples;
dict keys are unique, so only the fullname is ever compared and a stable
sort by fullname is exact; `sorted(projects, key=...)` is the stable sort
by project name (`List.insertionSort` is stable). -/
def mergeAndGroupByPerson (existing : GroupedData) (newData : FlatData) :
    GroupedData :=
  let temp := flattenExisting existing ++ ingestNew newData
  let merged := mergedEntries temp
  let grouped := groupByFullname merged
  let sortedPeople := grouped.insertionSort (fun a b => strLe a.1 b.1 = true)
  ⟨sortedPeople.map (fun kv =>
    { fullname := kv.1
      projects := kv.2.insertionSort (fun a b => strLe a.project b.project = true) })⟩

/-! ## `src/llm/test.py`: refine / fallback pipeline -/

/-- One person entry of the `test.py` schema.  Model-returned numbers are
arbitrary (`Int`/`ℚ`); `phases` is a list (`refine` coerces non-lists,
which the typed embedding makes implicit). -/
structure LLMPerson where
  fullname : String
  project : String
  start_date : String
  end_date : String
  total_tasks : Int
  duration_days : ℚ
  phases : List String
  kompleksitas : Int
deriving DecidableEq, Repr

structure LLMData where
  data : List LLMPerson
deriving DecidableEq, Repr

/-- `str.zfill(2)`. -/
def zfill2 (l : List Char) : List Char :=
  if l.length ≥ 2 then l else List.replicate (2 - l.length) '0' ++ l

/-- The prefix test of `normalize_date` (`test.py` 190):
`re.match(r'\d{1,2}/\d{1,2}/\d{2}', date_str)` — trailing characters are
unconstrained, so a four-digit year also passes. -/
def normalizeDateShape (s : List Char) : Bool :=
  let (r1, s1) := digitRun s
  if r1.isEmpty || r1.length > 2 then false
  else match s1 with
    | '/' :: s2 =>
      let (r2, s3) := digitRun s2
      if r2.isEmpty || r2.length > 2 then false
      else match s3 with
        | '/' :: s4 => (digitRun s4).1.length ≥ 2
        | _ => false
    | _ => false

/-- `normalize_date` (`test.py` 184–194): zero-pad month and day of an
`M/D/Y…` string; anything else is returned unchanged. -/
def normalizeDate (dateStr : String) : String :=
  if dateStr.data.isEmpty then ""
  else if normalizeDateShape dateStr.data then
    let parts := pySplitCharL '/' dateStr.data
    ⟨zfill2 (parts.getD 0 []) ++
      '/' :: (zfill2 (parts.getD 1 []) ++ '/' :: parts.getD 2 [])⟩
  else dateStr

/-- `re.search(r'Project:\s*([^\n]+?)(?:\s+Date:|$)', ocr_text)`
(`test.py` 137 and 253): leftmost start, greedy `\s*`, lazy group, the
alternation preferring `\s+Date:` over `$` (`$` matches at the end or
before a final newline). -/
def searchProjectName (ocr : List Char) : Option (List Char) :=
  (List.range (ocr.length + 1)).findSome? (fun p =>
    if sliceAt ocr p "Project:".data then
      let after := ocr.drop (p + 8)
      let wsMax := (after.takeWhile pyIsSpace).length
      (List.range (wsMax + 1)).findSome? (fun kk =>
        let rest := after.drop (wsMax - kk)
        (List.range rest.length).findSome? (fun gl =>
          let grp := rest.take (gl + 1)
          if grp.length = gl + 1 && grp.all (fun c => c ≠ '\n') then
            let tail := rest.drop (gl + 1)
            let wt := (tail.takeWhile pyIsSpace).length
            if wt ≥ 1 && sliceAt tail wt "Date:".data then some grp
            else if tail.isEmpty || tail = ['\n'] then some grp
            else none
          else none))
    else none)

/-- `re.sub(r'\s+Pro\s*$', '', project_name)` (`test.py` 139 and 255). -/
def stripProSuffix (name : List Char) : List Char :=
  match (List.range (name.length + 1)).findSome? (fun p =>
    let tail := name.drop p
    let w := (tail.takeWhile pyIsSpace).length
    if w ≥ 1 && sliceAt tail w "Pro".data then
      if (tail.drop (w + 3)).all pyIsSpace then some p else none
    else none) with
  | some p => name.take p
  | none => name

/-- The shared project-name extraction (`test.py` 137–139, 253–255). -/
def projectNameOf (ocrText : String) : String :=
  let base :=
    match searchProjectName ocrText.data with
    | some g => pyStripL g
    | none => "Unknown Project".data
  ⟨stripProSuffix base⟩

/-- `refine_with_post_processing` (`test.py` 127–181): drop entries whose
lowercased stripped fullname is shorter than two characters, substitute
the extracted project name for a missing or `Unknown Project` project,
normalize non-empty dates, clamp `kompleksitas` into `[1, 5]`, and keep
`total_tasks` and `duration_days` verbatim. -/
def refineWithPostProcessing (d : LLMData) (ocrText : String) : LLMData :=
  let projectName := projectNameOf ocrText
  ⟨d.data.filterMap (fun person =>
    let fullname := pyStrip (pyLower person.fullname)
    if fullname.data.isEmpty || fullname.data.length < 2 then none
    else
      let project :=
        if person.project = "" || person.project = "Unknown Project" then
          projectName
        else person.project
      let sd :=
        if person.start_date ≠ "" then normalizeDate person.start_date
        else person.start_date
      let ed :=
        if person.end_date ≠ "" then normalizeDate person.end_date
        else person.end_date
      some
        { fullname := fullname
          project := project
          start_date := sd
          end_date := ed
          total_tasks := person.total_tasks
          duration_days := person.duration_days
          phases := person.phases
          kompleksitas := max 1 (min 5 person.kompleksitas) })⟩

/-! ## `fallback_extraction` (`test.py` 244–347) -/

def pyIsAlnum (c : Char) : Bool := pyIsAlpha c || pyIsDigit c

/-- The extension `(?:\s*,\s*[A-Za-z0-9]+)*` of the resource capture,
greedy, returning the number of characters consumed. -/
def resGroupExt : Nat → List Char → Nat
  | 0, _ => 0
  | fuel + 1, s =>
    let w1 := (s.takeWhile pyIsSpace).length
    match s.drop w1 with
    | ',' :: r1 =>
      let w2 := (r1.takeWhile pyIsSpace).length
      let an := ((r1.drop w2).takeWhile pyIsAlnum).length
      if an = 0 then 0
      else
        let consumed := w1 + 1 + w2 + an
        consumed + resGroupExt fuel (s.drop consumed)
    | _ => 0

/-- One attempt of
`re.findall(r'\d{1,2}/\d{1,2}/\d{2,4}\s+\d+\s+([A-Za-z0-9]+(?:\s*,\s*[A-Za-z0-9]+)*)', line)`
(`test.py` 261) at the current position: returns (captured group, total
match length). -/
def matchResourceCapAt (s : List Char) : Option (List Char × Nat) :=
  let (r1, s1) := digitRun s
  if r1.isEmpty || r1.length > 2 then none
  else match s1 with
    | '/' :: s2 =>
      let (r2, s3) := digitRun s2
      if r2.isEmpty || r2.length > 2 then none
      else match s3 with
        | '/' :: s4 =>
          let (ry, s5) := digitRun s4
          if ry.length < 2 || ry.length > 4 then none
          else
            let (w1, s6) := wsRun s5
            if w1.isEmpty then none
            else
              let (dp, s7) := digitRun s6
              if dp.isEmpty then none
              else
                let (w2, s8) := wsRun s7
                if w2.isEmpty then none
                else
                  let an := (s8.takeWhile pyIsAlnum).length
                  if an = 0 then none
                  else
                    let glen := an + resGroupExt s8.length (s8.drop an)
                    some (s8.take glen,
                      r1.length + 1 + r2.length + 1 + ry.length + w1.length +
                        dp.length + w2.length + glen)
        | _ => none
    | _ => none

/-- One attempt of `re.findall(r'\d{1,2}/\d{1,2}/\d{2,4}', line)`
(`test.py` 300) at the current position. -/
def matchBareDateAt (s : List Char) : Option (List Char × Nat) :=
  let (r1, s1) := digitRun s
  if r1.isEmpty || r1.length > 2 then none
  else match s1 with
    | '/' :: s2 =>
      let (r2, s3) := digitRun s2
      if r2.isEmpty || r2.length > 2 then none
      else match s3 with
        | '/' :: s4 =>
          let ry := (digitRun s4).1
          if ry.length < 2 then none
          else
            let yTake := ry.take 4
            some (r1 ++ '/' :: r2 ++ '/' :: yTake,
              r1.length + 1 + r2.length + 1 + yTake.length)
        | _ => none
    | _ => none

/-- `re.findall` scanning: try a match at each position left to right and
continue after each (at least one character long) match. -/
def findallScan {α : Type} (matchAt : List Char → Option (α × Nat)) :
    Nat → List Char → List α
  | 0, _ => []
  | fuel + 1, s =>
    match s with
    | [] => []
    | _ :: rest =>
      match matchAt s with
      | some (a, len) => a :: findallScan matchAt fuel (s.drop (max len 1))
      | none => findallScan matchAt fuel rest

/-- `re.search(r'(\d+(?:\.\d+)?)\s+days?', line)` (`test.py` 301):
the first duration number on the line, as an exact rational. -/
def searchDuration (s : List Char) : Option ℚ :=
  (List.range s.length).findSome? (fun p =>
    let t := s.drop p
    let (dr, t1) := digitRun t
    if dr.isEmpty then none
    else
      let fr :=
        match t1 with
        | '.' :: r =>
          let (f, rr) := digitRun r
          if f.isEmpty then none else some (f, rr)
        | _ => none
      let (fracVal, t2) :=
        match fr with
        | some (f, rr) =>
            (((digitsToNat f : ℚ) / ((10 : ℚ) ^ f.length)), rr)
        | none => ((0 : ℚ), t1)
      let (w, t3) := wsRun t2
      if w.isEmpty then none
      else
        match t3 with
        | 'd' :: 'a' :: 'y' :: _ => some ((digitsToNat dr : ℚ) + fracVal)
        | _ => none)

/-- First-seen-order deduplication (Python `set` membership; the final
output is sorted by name, so set iteration order is immaterial). -/
def dedupKeepFirst (l : List String) : List String :=
  l.foldl (fun acc x => if acc.contains x then acc else acc ++ [x]) []

/-- The resource-collection loop (`test.py` 258–267): per line, captured
groups are comma-split, stripped, lowercased, and kept when their length
is in `(1, 20)` and they contain none of `days`, `task`, `page`,
`manual`. -/
def fallbackResources (lines : List (List Char)) : List String :=
  dedupKeepFirst
    ((lines.flatMap (fun ln => findallScan matchResourceCapAt ln.length ln)).flatMap
      (fun cap =>
        (pySplitCharL ',' cap).filterMap (fun n =>
          let nm := pyLowerL (pyStripL n)
          if !nm.isEmpty && nm.length > 1 && nm.length < 20 &&
              !(["days".data, "task".data, "page".data, "manual".data].any
                (fun b => pyContainsL nm b)) then
            some (⟨nm⟩ : String)
          else none)))

/-- The phase detector (`test.py` 286–296): keyword search on the
lowercased line, keeping the previous phase when nothing matches. -/
def detectPhase (lineLower : List Char) (current : Option String) :
    Option String :=
  if pyContainsL lineLower "analysis".data ||
      pyContainsL lineLower "design".data then some "ANALYSIS & DESIGN"
  else if pyContainsL lineLower "development".data then some "DEVELOPMENT"
  else if pyContainsL lineLower "testing".data then some "TESTING"
  else if pyContainsL lineLower "deployment".data then some "DEPLOYMENT"
  else if pyContainsL lineLower "kick off".data then some "KICK OFF"
  else current

/-- Per-resource accumulated state of `person_data`. -/
structure FallbackAcc where
  dates : List String
  durations : List ℚ
  phases : List String
deriving DecidableEq, Repr

/-- The aggregation loop (`test.py` 283–308): per line, update the phase,
then for every resource whose name occurs in the lowercased line, extend
its dates, append the line's first duration, and add the current phase
(a set, modeled as first-seen-order insertion). -/
def fallbackAggregate (resources : List String) (lines : List (List Char)) :
    List (String × FallbackAcc) :=
  (lines.foldl
    (fun st ln =>
      let lower := pyLowerL ln
      let phase := detectPhase lower st.1
      let tab := resources.foldl
        (fun tab res =>
          if pyContainsL lower res.data then
            let dates := (findallScan matchBareDateAt ln.length ln).map
              (fun d => (⟨d⟩ : String))
            let dur := searchDuration ln
            let upd := fun (a : FallbackAcc) =>
              { dates := a.dates ++ dates
                durations := a.durations ++ (match dur with
                  | some q => [q] | none => [])
                phases := a.phases ++ (match phase with
                  | some ph => if a.phases.contains ph then [] else [ph]
                  | none => []) }
            if tab.any (fun kv => kv.1 = res) then
              tab.map (fun kv => if kv.1 = res then (kv.1, upd kv.2) else kv)
            else tab ++ [(res, upd ⟨[], [], []⟩)]
          else tab)
        st.2
      (phase, tab))
    ((none : Option String), ([] : List (String × FallbackAcc)))).2

/-- `fallback_extraction` (`test.py` 244–347): regex extraction producing
the same `{"data": [...]}` schema from the document text alone, with no
language-model involvement. -/
def fallbackExtraction (ocrText : String) : LLMData :=
  let lines := pySplitCharL '\n' ocrText.data
  let projectName := projectNameOf ocrText
  let resources := fallbackResources lines
  if resources.isEmpty then ⟨[]⟩
  else
    let tab := fallbackAggregate resources lines
    let entries := tab.filterMap (fun kv =>
      let a := kv.2
      if a.dates.isEmpty then none
      else
        let nds := (a.dates.map normalizeDate).filter (fun d => d ≠ "")
        let sd := match nds with
          | [] => ""
          | d :: ds => pyMinOf d ds
        let ed := match nds with
          | [] => ""
          | d :: ds => pyMaxOf d ds
        let totalTasks := a.dates.length
        let durationDays : Nat :=
          if a.durations.isEmpty then totalTasks
          else (⌊a.durations.foldl (· + ·) 0⌋).toNat
        some
          { fullname := kv.1
            project := projectName
            start_date := sd
            end_date := ed
            total_tasks := (totalTasks : Int)
            duration_days := (durationDays : ℚ)
            phases := (dedupKeepFirst a.phases).insertionSort (fun x y => strLe x y = true)
            kompleksitas :=
              ((min 5 (max 1 ((totalTasks + durationDays / 10) / 3)) : Nat) : Int) })
    ⟨entries.insertionSort (fun x y => strLe x.fullname y.fullname = true)⟩

/-! ## The LLM-call dispatch (`test.py` 62–124, 197–241) -/

/-- Outcome of the HTTP call to the text-completion service:
`success raw` is a 200 response with body `raw`; the other constructors
are the failure modes `extract_with_ollama` handles. -/
inductive LLMOutcome where
  | connectionError
  | timeout
  | httpError (code : Nat)
  | success (raw : String)
deriving DecidableEq, Repr

/-- `extract_with_ollama` (`test.py` 62–124) as a function of the call
outcome.  `parseJson` stands for the JSON extraction of lines 89–109
(brace-matched recovery plus the `'data'` key check); every failure mode
of the call — connection error, timeout, non-200 status, unparseable
JSON — yields `none`. -/
def extractWithOllama (parseJson : String → Option LLMData) :
    LLMOutcome → Option LLMData
  | LLMOutcome.connectionError => none
  | LLMOutcome.timeout => none
  | LLMOutcome.httpError _ => none
  | LLMOutcome.success raw => parseJson raw

/-- `extract_project_data_with_llm` (`test.py` 197–241) from the loaded
OCR text onward: empty text aborts; a failed model call falls back to
`fallback_extraction`; a successful call is refined, and an empty refined
result aborts. -/
def extractProjectDataWithLLM (parseJson : String → Option LLMData)
    (ocrText : String) (o : LLMOutcome) : Option LLMData :=
  if ocrText.data.isEmpty then none
  else
    match extractWithOllama parseJson o with
    | none => some (fallbackExtraction ocrText)
    | some res =>
      let refined := refineWithPostProcessing res ocrText
      if refined.data.isEmpty then none else some refined

/-! ## Canonical datasets (for the merge idempotence analysis)

`merge_and_group_by_person` normalizes colliding entries (sorted
duplicate-free task lists, recomputed totals and complexity, lowercase
keys, sorted grouping), so merging a dataset with itself reproduces it
only when the dataset already has that canonical shape. -/

/-- The flat `{"data": [...]}` view of a grouped dataset: the same
entries, used to merge a dataset with itself. -/
def flattenAsNew (D : GroupedData) : FlatData := ⟨flattenExisting D⟩

/-- The merge dict's key (`llama3.2_3b.py` 328). -/
def entryKey (e : PersonEntry) : String × String := (e.fullname, e.project)

/-- A project summary in the shape `merge_and_group_by_person` produces on
a collision: lowercase project, sorted duplicate-free tasks, totals and
complexity derived from the task list. -/
def summaryCanonical (ps : ProjectSummary) : Prop :=
  ps.project = pyLower ps.project ∧
  List.Pairwise (fun x y => strLe x y = true) ps.tasks ∧
  ps.tasks.Nodup ∧
  ps.total_tasks = ps.tasks.length ∧
  ps.kompleksitas = kompleksitasOf ps.tasks.length

/-- A person record in output shape: lowercase fullname, at least one
project, projects strictly sorted by project name, canonical summaries. -/
def personCanonical (p : PersonRecord) : Prop :=
  p.fullname = pyLower p.fullname ∧
  p.projects ≠ [] ∧
  List.Pairwise (fun x y =>
    strLe x.project y.project = true ∧ x.project ≠ y.project) p.projects ∧
  ∀ ps ∈ p.projects, summaryCanonical ps

/-- A dataset in output shape: people strictly sorted by fullname, each
canonical. -/
def datasetCanonical (D : GroupedData) : Prop :=
  List.Pairwise (fun x y =>
    strLe x.fullname y.fullname = true ∧ x.fullname ≠ y.fullname) D.people ∧
  ∀ p ∈ D.people, personCanonical p

/-! # Theorems -/

/-! ## The string order is a total order -/

theorem lexLe_refl (as : List Char) : lexLe as as = true := by
  induction as with
  | nil => rfl
  | cons a as ih => simp [lexLe, lt_irrefl, ih]

theorem lexLe_total (as bs : List Char) :
    lexLe as bs = true ∨ lexLe bs as = true := by
  induction as generalizing bs with
  | nil => left; rfl
  | cons a as ih =>
    cases bs with
    | nil => right; rfl
    | cons b bs =>
      rcases lt_trichotomy a b with h | h | h
      · left; simp [lexLe, h]
      · subst h
        rcases ih bs with h2 | h2
        · left; simp [lexLe, lt_irrefl, h2]
        · right; simp [lexLe, lt_irrefl, h2]
      · right; simp [lexLe, h]

theorem lexLe_antisymm {as bs : List Char} (h1 : lexLe as bs = true)
    (h2 : lexLe bs as = true) : as = bs := by
  induction as generalizing bs with
  | nil =>
    cases bs with
    | nil => rfl
    | cons b bs => simp [lexLe] at h2
  | cons a as ih =>
    cases bs with
    | nil => simp [lexLe] at h1
    | cons b bs =>
      rcases lt_trichotomy a b with h | h | h
      · rw [lexLe, if_neg (asymm h), if_pos h] at h2
        cases h2
      · subst h
        rw [lexLe, if_neg (lt_irrefl a), if_neg (lt_irrefl a)] at h1 h2
        rw [ih h1 h2]
      · rw [lexLe, if_neg (asymm h), if_pos h] at h1
        cases h1

theorem lexLe_trans {as bs cs : List Char} (h1 : lexLe as bs = true)
    (h2 : lexLe bs cs = true) : lexLe as cs = true := by
  induction as generalizing bs cs with
  | nil => rfl
  | cons a as ih =>
    cases bs with
    | nil => simp [lexLe] at h1
    | cons b bs =>
      cases cs with
      | nil => simp [lexLe] at h2
      | cons c cs =>
        rcases lt_trichotomy a b with hab | hab | hab
        · rcases lt_trichotomy b c with hbc | hbc | hbc
          · simp [lexLe, lt_trans hab hbc]
          · subst hbc; simp [lexLe, hab]
          · rw [lexLe, if_neg (asymm hbc), if_pos hbc] at h2; cases h2
        · subst hab
          rcases lt_trichotomy a c with hac | hac | hac
          · simp [lexLe, hac]
          · subst hac
            rw [lexLe, if_neg (lt_irrefl a), if_neg (lt_irrefl a)] at h1 h2 ⊢
            exact ih h1 h2
          · rw [lexLe, if_neg (asymm hac), if_pos hac] at h2; cases h2
        · rw [lexLe, if_neg (asymm hab), if_pos hab] at h1; cases h1

theorem strLe_refl (a : String) : strLe a a = true := lexLe_refl a.data

theorem strLe_total (a b : String) : strLe a b = true ∨ strLe b a = true :=
  lexLe_total a.data b.data

theorem strLe_antisymm {a b : String} (h1 : strLe a b = true)
    (h2 : strLe b a = true) : a = b := by
  cases a; cases b
  exact congrArg String.mk (lexLe_antisymm h1 h2)

theorem strLe_trans {a b c : String} (h1 : strLe a b = true)
    (h2 : strLe b c = true) : strLe a c = true :=
  lexLe_trans h1 h2

theorem strLe_of_not {a b : String} (h : ¬ strLe a b = true) :
    strLe b a = true := by
  rcases strLe_total a b with h' | h'
  · exact absurd h' h
  · exact h'

/-! ## Python `min`/`max` helper lemmas -/

theorem pyMinStr_choice (a b : String) : pyMinStr a b = a ∨ pyMinStr a b = b := by
  rw [pyMinStr]; split <;> simp

theorem pyMinStr_le_left (a b : String) : strLe (pyMinStr a b) a = true := by
  rw [pyMinStr]; split
  · exact strLe_refl a
  · exact strLe_of_not (by assumption)

theorem pyMinStr_le_right (a b : String) : strLe (pyMinStr a b) b = true := by
  rw [pyMinStr]; split
  · assumption
  · exact strLe_refl b

theorem pyMaxStr_choice (a b : String) : pyMaxStr a b = a ∨ pyMaxStr a b = b := by
  rw [pyMaxStr]; split <;> simp

theorem pyMaxStr_ge_left (a b : String) : strLe a (pyMaxStr a b) = true := by
  rw [pyMaxStr]; split
  · exact strLe_refl a
  · exact strLe_of_not (by assumption)

theorem pyMaxStr_ge_right (a b : String) : strLe b (pyMaxStr a b) = true := by
  rw [pyMaxStr]; split
  · assumption
  · exact strLe_refl b

theorem pyMinOf_mem (d : String) (ds : List String) :
    pyMinOf d ds ∈ d :: ds := by
  induction ds generalizing d with
  | nil => simp [pyMinOf]
  | cons e es ih =>
    have h := ih (pyMinStr d e)
    have hstep : pyMinOf d (e :: es) = pyMinOf (pyMinStr d e) es := rfl
    rw [hstep]
    simp only [List.mem_cons] at h ⊢
    rcases h with h | h
    · rcases pyMinStr_choice d e with hm | hm
      · left; rw [h, hm]
      · right; left; rw [h, hm]
    · right; right; exact h

theorem pyMinOf_le (d : String) (ds : List String) :
    ∀ x ∈ d :: ds, strLe (pyMinOf d ds) x = true := by
  induction ds generalizing d with
  | nil =>
    intro x hx
    simp only [List.mem_cons, List.not_mem_nil, or_false] at hx
    subst hx
    exact strLe_refl x
  | cons e es ih =>
    intro x hx
    have hstep : pyMinOf d (e :: es) = pyMinOf (pyMinStr d e) es := rfl
    rw [hstep]
    have hh := ih (pyMinStr d e) (pyMinStr d e) (List.mem_cons_self _ _)
    simp only [List.mem_cons] at hx
    rcases hx with rfl | rfl | hx
    · exact strLe_trans hh (pyMinStr_le_left _ _)
    · exact strLe_trans hh (pyMinStr_le_right _ _)
    · exact ih (pyMinStr d e) x (List.mem_cons_of_mem _ hx)

theorem pyMaxOf_mem (d : String) (ds : List String) :
    pyMaxOf d ds ∈ d :: ds := by
  induction ds generalizing d with
  | nil => simp [pyMaxOf]
  | cons e es ih =>
    have h := ih (pyMaxStr d e)
    have hstep : pyMaxOf d (e :: es) = pyMaxOf (pyMaxStr d e) es := rfl
    rw [hstep]
    simp only [List.mem_cons] at h ⊢
    rcases h with h | h
    · rcases pyMaxStr_choice d e with hm | hm
      · left; rw [h, hm]
      · right; left; rw [h, hm]
    · right; right; exact h

theorem pyMaxOf_ge (d : String) (ds : List String) :
    ∀ x ∈ d :: ds, strLe x (pyMaxOf d ds) = true := by
  induction ds generalizing d with
  | nil =>
    intro x hx
    simp only [List.mem_cons, List.not_mem_nil, or_false] at hx
    subst hx
    exact strLe_refl x
  | cons e es ih =>
    intro x hx
    have hstep : pyMaxOf d (e :: es) = pyMaxOf (pyMaxStr d e) es := rfl
    rw [hstep]
    have hh := ih (pyMaxStr d e) (pyMaxStr d e) (List.mem_cons_self _ _)
    simp only [List.mem_cons] at hx
    rcases hx with rfl | rfl | hx
    · exact strLe_trans (pyMaxStr_ge_left _ _) hh
    · exact strLe_trans (pyMaxStr_ge_right _ _) hh
    · exact ih (pyMaxStr d e) x (List.mem_cons_of_mem _ hx)

/-! ## C9 — resource token classifier -/

/-- C9: the resource token classifier rejects `"08/12/24"`, `"Tuesday"`,
`"page"` and `"3"`, and accepts `"Herman"`, `"PG1"` and `"Jeannie,Ryan"`;
a task line whose trailing token is `"Jeannie,Ryan"` parses with the two
resource names `"Jeannie"` and `"Ryan"`. -/
theorem resource_classifier_facts :
    isValidResourceName "08/12/24" = false ∧
    isValidResourceName "Tuesday" = false ∧
    isValidResourceName "page" = false ∧
    isValidResourceName "3" = false ∧
    isValidResourceName "Herman" = true ∧
    isValidResourceName "PG1" = true ∧
    isValidResourceName "Jeannie,Ryan" = true ∧
    (parseTaskLine "3" "Integration 5 days 7/1/24 7/5/24 Jeannie,Ryan").map
        (fun t => t.resources) = some ["Jeannie", "Ryan"] := by
  decide

/-! ## C3 — end-to-end on the two-line synthetic document -/

/-- C3: parsing and expanding the two-line synthetic document yields
exactly the three expanded tasks (task 1 for Herman, task 2 for Herman,
task 2 for Ryan), and the summaries derived from the canonical tasks give
Herman total_tasks 2, 2024-06-10..2024-06-19, complexity 2, and Ryan
total_tasks 1, complexity 1 — whatever the model entries claimed. -/
theorem end_to_end_two_line_document :
    extractTasksFromText
        "1 Design Spec 4 days Mon 6/10/24 Thu 6/13/24 Herman\n2 Build Module 6 days Fri 6/14/24 Wed 6/19/24 Herman, Ryan" =
      [⟨"1", "Design Spec", ⟨4, "days", "4 days"⟩, "2024-06-10", "2024-06-13",
        [], "Herman"⟩,
       ⟨"2", "Build Module", ⟨6, "days", "6 days"⟩, "2024-06-14", "2024-06-19",
        [], "Herman"⟩,
       ⟨"2", "Build Module", ⟨6, "days", "6 days"⟩, "2024-06-14", "2024-06-19",
        [], "Ryan"⟩] ∧
    postProcessPerson
        (extractTasksFromText
          "1 Design Spec 4 days Mon 6/10/24 Thu 6/13/24 Herman\n2 Build Module 6 days Fri 6/14/24 Wed 6/19/24 Herman, Ryan")
        ⟨"Herman", "ProjX", "1999-01-01", "1999-01-02", 42, ["junk"], 5⟩ =
      ⟨"herman", "projx", "2024-06-10", "2024-06-19", 2,
        ["design spec", "build module"], 2⟩ ∧
    postProcessPerson
        (extractTasksFromText
          "1 Design Spec 4 days Mon 6/10/24 Thu 6/13/24 Herman\n2 Build Module 6 days Fri 6/14/24 Wed 6/19/24 Herman, Ryan")
        ⟨"Ryan", "ProjX", "", "", 0, [], 0⟩ =
      ⟨"ryan", "projx", "2024-06-14", "2024-06-19", 1, ["build module"], 1⟩ := by
  refine ⟨by decide, by decide, by decide⟩

/-! ## C7 — task expansion -/

/-- C7: expanding a task with resources `["A","B"]` and predecessors
`["3"]` gives exactly two tasks, one per resource, each carrying the
predecessor list `["3"]`; in the pure embedding the two predecessor lists
are separate values (the code copies them per clone), so replacing one
clone's predecessors leaves the other clone unchanged; a task with no
resources expands to nothing, and in general no expanded task has a blank
resource; the parse-time deduplication collapses `["A","A"]` (also the
case-insensitive `["A","a"]`) to `["A"]`. -/
theorem task_expansion_facts :
    expandTasksByResource
        [⟨"7", "T", ⟨2, "days", "2 days"⟩, "2024-01-01", "2024-01-02",
          ["3"], ["A", "B"]⟩] =
      [⟨"7", "T", ⟨2, "days", "2 days"⟩, "2024-01-01", "2024-01-02", ["3"], "A"⟩,
       ⟨"7", "T", ⟨2, "days", "2 days"⟩, "2024-01-01", "2024-01-02", ["3"], "B"⟩] ∧
    (∀ newPreds : List String,
      (expandTasksByResource
          [⟨"7", "T", ⟨2, "days", "2 days"⟩, "2024-01-01", "2024-01-02",
            ["3"], ["A", "B"]⟩]).map
          (fun t => if t.resource = "A" then { t with predecessors := newPreds }
            else t) =
        [⟨"7", "T", ⟨2, "days", "2 days"⟩, "2024-01-01", "2024-01-02",
          newPreds, "A"⟩,
         ⟨"7", "T", ⟨2, "days", "2 days"⟩, "2024-01-01", "2024-01-02",
          ["3"], "B"⟩]) ∧
    expandTasksByResource
        [⟨"7", "T", ⟨2, "days", "2 days"⟩, "2024-01-01", "2024-01-02",
          ["3"], []⟩] = [] ∧
    (∀ (tasks : List PreTask) (t : ExpTask),
      t ∈ expandTasksByResource tasks → pyStrip t.resource ≠ "") ∧
    dedupResources ["A", "A"] = ["A"] ∧
    dedupResources ["A", "a"] = ["A"] := by
  have h1 : expandTasksByResource
      [⟨"7", "T", ⟨2, "days", "2 days"⟩, "2024-01-01", "2024-01-02",
        ["3"], ["A", "B"]⟩] =
      [⟨"7", "T", ⟨2, "days", "2 days"⟩, "2024-01-01", "2024-01-02", ["3"], "A"⟩,
       ⟨"7", "T", ⟨2, "days", "2 days"⟩, "2024-01-01", "2024-01-02", ["3"],
        "B"⟩] := by decide
  refine ⟨h1, ?_, by decide, ?_, by decide, by decide⟩
  · intro newPreds
    rw [h1]
    rfl
  · intro tasks t ht
    rw [expandTasksByResource, List.mem_flatMap] at ht
    obtain ⟨task, -, hmem⟩ := ht
    have hres : t.resource ∈ task.resources.filter (fun r =>
        !r.data.isEmpty && !(pyStrip r).data.isEmpty) := by
      rw [expandOneTask] at hmem
      split at hmem
      · simp at hmem
      · rename_i r heq
        simp only [List.mem_singleton] at hmem
        subst hmem
        rw [heq]
        exact List.mem_singleton_self r
      · rename_i r₁ r₂ rest heq
        rw [List.mem_filterMap] at hmem
        obtain ⟨r, hr, hsome⟩ := hmem
        by_cases hc : (r.data.isEmpty || (pyStrip r).data.isEmpty) = true
        · rw [if_pos hc] at hsome; cases hsome
        · rw [if_neg hc] at hsome
          cases hsome
          rw [heq]
          exact hr
    rw [List.mem_filter] at hres
    have h2 := hres.2
    simp only [Bool.and_eq_true, Bool.not_eq_true'] at h2
    intro hcontra
    have hemp : (pyStrip t.resource).data.isEmpty = true := by
      rw [hcontra]; rfl
    rw [h2.2] at hemp
    cases hemp

/-! ## C10 — unmatched model entries survive with empty facts -/

/-- C10: a model entry whose lowercased trimmed fullname matches no
canonical resource is not dropped: it survives post-processing with empty
dates, an empty task list, `total_tasks = 0` and `kompleksitas = 1` (and
entry count is always preserved). -/
theorem unmatched_entry_survives (tasks : List ExpTask) (p : PersonEntry)
    (h : ∀ t ∈ tasks, pyLower t.resource ≠ pyStrip (pyLower p.fullname)) :
    postProcessPerson tasks p =
      { fullname := pyStrip (pyLower p.fullname), project := pyLower p.project,
        start_date := "", finish_date := "", total_tasks := 0, tasks := [],
        kompleksitas := 1 } ∧
    ∀ (r : LLMResult), (postProcessResult r tasks).data.length = r.data.length := by
  constructor
  · have hfil : canonicalTasksFor tasks (pyStrip (pyLower p.fullname)) = [] := by
      rw [canonicalTasksFor, List.filter_eq_nil_iff]
      intro t ht
      simp only [decide_eq_true_eq]
      exact h t ht
    simp only [postProcessPerson, hfil, List.map_nil]
    rfl
  · intro r
    rw [postProcessResult]
    simp [List.length_map]

/-- Witness for `unmatched_entry_survives` at a concrete input. -/
theorem unmatched_entry_survives_witness :
    postProcessPerson
        [⟨"1", "T", ⟨1, "days", "1 day"⟩, "2024-01-01", "2024-01-02", [],
          "Herman"⟩]
        ⟨"Ghost", "P", "2020-01-01", "2020-02-02", 9, ["x"], 4⟩ =
      { fullname := "ghost", project := "p", start_date := "",
        finish_date := "", total_tasks := 0, tasks := [], kompleksitas := 1 } ∧
    ∀ (r : LLMResult),
      (postProcessResult r
          [⟨"1", "T", ⟨1, "days", "1 day"⟩, "2024-01-01", "2024-01-02", [],
            "Herman"⟩]).data.length = r.data.length := by
  have := unmatched_entry_survives
    [⟨"1", "T", ⟨1, "days", "1 day"⟩, "2024-01-01", "2024-01-02", [], "Herman"⟩]
    ⟨"Ghost", "P", "2020-01-01", "2020-02-02", 9, ["x"], 4⟩
    (by decide)
  exact this

/-- Witness for the hypothesis-bearing conjuncts of
`task_expansion_facts` at concrete inputs. -/
theorem task_expansion_facts_witness :
    pyStrip
        (ExpTask.resource
          ⟨"7", "T", ⟨2, "days", "2 days"⟩, "2024-01-01", "2024-01-02",
            ["3"], "A"⟩) ≠ "" :=
  task_expansion_facts.2.2.2.1
    [⟨"7", "T", ⟨2, "days", "2 days"⟩, "2024-01-01", "2024-01-02",
      ["3"], ["A", "B"]⟩]
    ⟨"7", "T", ⟨2, "days", "2 days"⟩, "2024-01-01", "2024-01-02", ["3"], "A"⟩
    (by decide)

/-! ## C1 — mandatory reconciliation overwrite -/

/-- C1: for every person entry the model returns, post-processing matches
its fullname case-insensitively against the canonical resources and
overwrites every fact field from the canonical task records: the output
does not depend on the model's fact fields at all, its task list / count /
complexity are those of the canonical tasks, and its dates are the
least start and greatest finish among them; in particular, for canonical
person "herman" with 7 tasks spanning 2024-06-01..2024-06-20 and a model
entry claiming 3 tasks over 2024-01-01..2024-01-02, the output shows
total_tasks 7, 2024-06-01..2024-06-20 and kompleksitas 3. -/
theorem reconciliation_overwrite :
    (∀ (tasks : List ExpTask) (p : PersonEntry),
      postProcessPerson tasks p =
        postProcessPerson tasks
          ⟨p.fullname, p.project, "2024-01-01", "2024-01-02", 3,
            ["model junk"], 999⟩) ∧
    (∀ (tasks : List ExpTask) (p : PersonEntry),
      (postProcessPerson tasks p).tasks =
        (canonicalTasksFor tasks (pyStrip (pyLower p.fullname))).map
          (fun t => pyLower t.task_name) ∧
      (postProcessPerson tasks p).total_tasks =
        (canonicalTasksFor tasks (pyStrip (pyLower p.fullname))).length ∧
      (postProcessPerson tasks p).kompleksitas =
        kompleksitasOf
          (canonicalTasksFor tasks (pyStrip (pyLower p.fullname))).length ∧
      (canonicalTasksFor tasks (pyStrip (pyLower p.fullname)) ≠ [] →
        (postProcessPerson tasks p).start_date ∈
          (canonicalTasksFor tasks (pyStrip (pyLower p.fullname))).map
            (fun t => t.start_date) ∧
        (∀ d ∈ (canonicalTasksFor tasks (pyStrip (pyLower p.fullname))).map
            (fun t => t.start_date),
          strLe (postProcessPerson tasks p).start_date d = true) ∧
        (postProcessPerson tasks p).finish_date ∈
          (canonicalTasksFor tasks (pyStrip (pyLower p.fullname))).map
            (fun t => t.finish_date) ∧
        (∀ d ∈ (canonicalTasksFor tasks (pyStrip (pyLower p.fullname))).map
            (fun t => t.finish_date),
          strLe d (postProcessPerson tasks p).finish_date = true))) ∧
    postProcessPerson
        [⟨"1", "T1", ⟨1, "days", "1 day"⟩, "2024-06-01", "2024-06-03", [], "Herman"⟩,
         ⟨"2", "T2", ⟨1, "days", "1 day"⟩, "2024-06-04", "2024-06-06", [], "Herman"⟩,
         ⟨"3", "T3", ⟨1, "days", "1 day"⟩, "2024-06-07", "2024-06-09", [], "Herman"⟩,
         ⟨"4", "T4", ⟨1, "days", "1 day"⟩, "2024-06-10", "2024-06-12", [], "Herman"⟩,
         ⟨"5", "T5", ⟨1, "days", "1 day"⟩, "2024-06-13", "2024-06-15", [], "Herman"⟩,
         ⟨"6", "T6", ⟨1, "days", "1 day"⟩, "2024-06-16", "2024-06-18", [], "Herman"⟩,
         ⟨"7", "T7", ⟨1, "days", "1 day"⟩, "2024-06-19", "2024-06-20", [], "Herman"⟩]
        ⟨"herman", "ProjX", "2024-01-01", "2024-01-02", 3, ["a", "b", "c"], 2⟩ =
      ⟨"herman", "projx", "2024-06-01", "2024-06-20", 7,
        ["t1", "t2", "t3", "t4", "t5", "t6", "t7"], 3⟩ := by
  refine ⟨fun tasks p => rfl, fun tasks p => ?_, by decide⟩
  have htot : (postProcessPerson tasks p).total_tasks =
      ((canonicalTasksFor tasks (pyStrip (pyLower p.fullname))).map
        (fun t => pyLower t.task_name)).length := rfl
  have hkom : (postProcessPerson tasks p).kompleksitas =
      kompleksitasOf
        ((canonicalTasksFor tasks (pyStrip (pyLower p.fullname))).map
          (fun t => pyLower t.task_name)).length := rfl
  refine ⟨rfl, by rw [htot, List.length_map],
    by rw [hkom, List.length_map], ?_⟩
  intro hne
  rcases hcan : canonicalTasksFor tasks (pyStrip (pyLower p.fullname))
    with _ | ⟨t0, ts⟩
  · exact absurd hcan hne
  · have hsd : (postProcessPerson tasks p).start_date =
        pyMinOf t0.start_date (ts.map (fun t => t.start_date)) := by
      simp only [postProcessPerson, canonicalTasksFor] at *
      simp only [hcan, List.map_cons]
    have hfd : (postProcessPerson tasks p).finish_date =
        pyMaxOf t0.finish_date (ts.map (fun t => t.finish_date)) := by
      simp only [postProcessPerson, canonicalTasksFor] at *
      simp only [hcan, List.map_cons]
    rw [hsd, hfd]
    refine ⟨?_, ?_, ?_, ?_⟩
    · simpa using pyMinOf_mem t0.start_date (ts.map (fun t => t.start_date))
    · intro d hd
      exact pyMinOf_le t0.start_date (ts.map (fun t => t.start_date)) d
        (by simpa using hd)
    · simpa using pyMaxOf_mem t0.finish_date (ts.map (fun t => t.finish_date))
    · intro d hd
      exact pyMaxOf_ge t0.finish_date (ts.map (fun t => t.finish_date)) d
        (by simpa using hd)

/-- Witness for the hypothesis-bearing conjunct of
`reconciliation_overwrite` at a concrete input. -/
theorem reconciliation_overwrite_witness :
    (postProcessPerson
        [⟨"1", "T1", ⟨1, "days", "1 day"⟩, "2024-06-05", "2024-06-07", [],
          "Ann"⟩]
        ⟨"Ann", "P", "x", "y", 9, [], 9⟩).start_date ∈
      (canonicalTasksFor
          [⟨"1", "T1", ⟨1, "days", "1 day"⟩, "2024-06-05", "2024-06-07", [],
            "Ann"⟩]
          (pyStrip (pyLower "Ann"))).map (fun t => t.start_date) := by
  exact (reconciliation_overwrite.2.1
    [⟨"1", "T1", ⟨1, "days", "1 day"⟩, "2024-06-05", "2024-06-07", [], "Ann"⟩]
    ⟨"Ann", "P", "x", "y", 9, [], 9⟩).2.2.2 (by decide) |>.1

/-! ## C2 — the complexity function (corrected) -/

/-- C2 (counterexample): the claim is false as stated — `test.py`'s
post-processing (`refine_with_post_processing`, lines 161–163) takes the
model's `kompleksitas` verbatim, merely clamping it into `[1, 5]`: the
post-processed entry below keeps complexity 1 although it has
`total_tasks = 7` and the step function gives 3. -/
theorem complexity_taken_verbatim_counterexample :
    (refineWithPostProcessing
        ⟨[⟨"herman", "p", "", "", 7, 0, [], 1⟩]⟩ "").data =
      [⟨"herman", "p", "", "", 7, 0, [], 1⟩] ∧
    kompleksitasOf 7 = 3 ∧
    ((1 : Int) ≠ ((kompleksitasOf 7 : Nat) : Int)) := by
  refine ⟨by decide, by decide, by decide⟩

/-- C2 (amended): the complexity score computed by `llama3.2_3b.py` —
in `post_process_result` and on every merge collision — is the fixed step
function of `total_tasks` ({0,1}→1, {2,3,4}→2, {5..9}→3, {10..14}→4,
≥15→5) and ignores the model's suggestion; `test.py`'s
`refine_with_post_processing`, however, keeps the model's own
`kompleksitas`, only clamping it into `[1, 5]`. -/
theorem complexity_step_function :
    (∀ n : Nat,
      (n ≤ 1 → kompleksitasOf n = 1) ∧
      (2 ≤ n → n ≤ 4 → kompleksitasOf n = 2) ∧
      (5 ≤ n → n ≤ 9 → kompleksitasOf n = 3) ∧
      (10 ≤ n → n ≤ 14 → kompleksitasOf n = 4) ∧
      (15 ≤ n → kompleksitasOf n = 5)) ∧
    (∀ (tasks : List ExpTask) (p : PersonEntry),
      (postProcessPerson tasks p).kompleksitas =
        kompleksitasOf (postProcessPerson tasks p).total_tasks) ∧
    (∀ a b : PersonEntry,
      (mergeEntry a b).kompleksitas =
        kompleksitasOf (mergeEntry a b).total_tasks) ∧
    (∀ (d : LLMData) (ocr : String) (p : LLMPerson),
      p ∈ (refineWithPostProcessing d ocr).data →
      ∃ q ∈ d.data, p.total_tasks = q.total_tasks ∧
        p.kompleksitas = max 1 (min 5 q.kompleksitas)) := by
  refine ⟨?_, fun tasks p => rfl, fun a b => rfl, ?_⟩
  · intro n
    refine ⟨?_, ?_, ?_, ?_, ?_⟩ <;>
      · intros
        unfold kompleksitasOf
        split_ifs <;> omega
  · intro d ocr p hp
    simp only [refineWithPostProcessing, List.mem_filterMap] at hp
    obtain ⟨q, hq, hsome⟩ := hp
    split at hsome
    · cases hsome
    · cases hsome
      exact ⟨q, hq, rfl, rfl⟩

/-- Witness for the hypothesis-bearing conjuncts of
`complexity_step_function` at concrete inputs. -/
theorem complexity_step_function_witness :
    kompleksitasOf 1 = 1 ∧
    (∃ q ∈ ([⟨"herman", "p", "", "", 7, 0, [], 1⟩] : List LLMPerson),
      LLMPerson.total_tasks ⟨"herman", "p", "", "", 7, 0, [], 1⟩ =
        q.total_tasks ∧
      LLMPerson.kompleksitas ⟨"herman", "p", "", "", 7, 0, [], 1⟩ =
        max 1 (min 5 q.kompleksitas)) := by
  refine ⟨(complexity_step_function.1 1).1 (by decide), ?_⟩
  exact complexity_step_function.2.2.2
    ⟨[⟨"herman", "p", "", "", 7, 0, [], 1⟩]⟩ ""
    ⟨"herman", "p", "", "", 7, 0, [], 1⟩ (by decide)

/-! ## C6 — deterministic fallback on model failure -/

/-- C6: every failure mode of the model call — connection error, timeout,
non-200 response, or JSON that cannot be parsed after recovery — makes
`extract_with_ollama` return nothing, and on any such failure the pipeline
returns exactly the deterministic `fallback_extraction` of the document
text (a total function of the text alone, producing the same `data`
schema with no model involvement). -/
theorem llm_failure_falls_back :
    (∀ pj : String → Option LLMData,
      extractWithOllama pj LLMOutcome.connectionError = none ∧
      extractWithOllama pj LLMOutcome.timeout = none ∧
      (∀ c, extractWithOllama pj (LLMOutcome.httpError c) = none) ∧
      (∀ raw, pj raw = none →
        extractWithOllama pj (LLMOutcome.success raw) = none)) ∧
    (∀ (pj : String → Option LLMData) (ocrText : String) (o : LLMOutcome),
      ocrText.data ≠ [] →
      extractWithOllama pj o = none →
      extractProjectDataWithLLM pj ocrText o =
        some (fallbackExtraction ocrText)) := by
  refine ⟨fun pj => ⟨rfl, rfl, fun c => rfl, fun raw h => h⟩, ?_⟩
  intro pj ocrText o hne hfail
  rw [extractProjectDataWithLLM]
  rw [if_neg (by simpa [List.isEmpty_iff] using hne)]
  rw [hfail]

/-- Witness for the hypothesis-bearing conjuncts of
`llm_failure_falls_back` at concrete inputs. -/
theorem llm_failure_falls_back_witness :
    extractWithOllama (fun _ => none) (LLMOutcome.success "not json") = none ∧
    extractProjectDataWithLLM (fun _ => none) "doc text"
        LLMOutcome.connectionError =
      some (fallbackExtraction "doc text") := by
  refine ⟨(llm_failure_falls_back.1 (fun _ => none)).2.2.2 "not json" rfl, ?_⟩
  exact llm_failure_falls_back.2 (fun _ => none) "doc text"
    LLMOutcome.connectionError (by decide) rfl

/-! ## C5 — merge collision semantics and grouping -/

theorem sorted_insertionSort_str {α : Type} (key : α → String) (l : List α) :
    List.Pairwise (fun x y => strLe (key x) (key y) = true)
      (l.insertionSort (fun x y => strLe (key x) (key y) = true)) := by
  haveI : IsTotal α (fun x y => strLe (key x) (key y) = true) :=
    ⟨fun x y => strLe_total _ _⟩
  haveI : IsTrans α (fun x y => strLe (key x) (key y) = true) :=
    ⟨fun _ _ _ => strLe_trans⟩
  exact List.sorted_insertionSort _ l

theorem groupStep_keys (acc : List (String × List ProjectSummary))
    (e : PersonEntry) :
    (groupStep acc e).map Prod.fst =
      if acc.any (fun kv => kv.1 = e.fullname) then acc.map Prod.fst
      else acc.map Prod.fst ++ [e.fullname] := by
  rw [groupStep]
  split
  · rw [List.map_map]
    refine List.map_congr_left ?_
    intro kv _
    by_cases h : kv.1 = e.fullname <;> simp [h]
  · simp

theorem groupStep_keys_nodup (acc : List (String × List ProjectSummary))
    (e : PersonEntry) (h : (acc.map Prod.fst).Nodup) :
    ((groupStep acc e).map Prod.fst).Nodup := by
  rw [groupStep_keys]
  split
  · exact h
  · rename_i hany
    rw [List.nodup_append]
    refine ⟨h, List.nodup_singleton _, ?_⟩
    intro x hx hmem
    simp only [List.mem_singleton] at hmem
    subst hmem
    rw [List.mem_map] at hx
    obtain ⟨kv, hkv, hfst⟩ := hx
    apply hany
    rw [List.any_eq_true]
    exact ⟨kv, hkv, by simpa using hfst⟩

theorem groupByFullname_keys_nodup (l : List PersonEntry) :
    ((groupByFullname l).map Prod.fst).Nodup := by
  rw [groupByFullname]
  suffices h : ∀ acc : List (String × List ProjectSummary),
      (acc.map Prod.fst).Nodup → ((l.foldl groupStep acc).map Prod.fst).Nodup by
    exact h [] (by simp)
  induction l with
  | nil => intro acc hacc; simpa using hacc
  | cons e es ih =>
    intro acc hacc
    exact ih (groupStep acc e) (groupStep_keys_nodup acc e hacc)

/-- C5: on a key collision the merged entry's task list is the
duplicate-free union of the two task-name sets (never a concatenation
with duplicates), `total_tasks` is the union's size, the start (finish)
date is the least (greatest) of the non-empty dates on the two sides, and
complexity is recomputed from the merged total; after merging, the output
has one record per fullname and every person's project summaries are
sorted by project name. -/
theorem merge_collision_and_grouping :
    (∀ a b : PersonEntry,
      (mergeEntry a b).tasks.toFinset = a.tasks.toFinset ∪ b.tasks.toFinset ∧
      (mergeEntry a b).tasks.Nodup ∧
      (mergeEntry a b).total_tasks =
        (a.tasks.toFinset ∪ b.tasks.toFinset).card ∧
      (mergeEntry a b).kompleksitas =
        kompleksitasOf (mergeEntry a b).total_tasks ∧
      (([a.start_date, b.start_date].filter (fun d => d ≠ "")) ≠ [] →
        (mergeEntry a b).start_date ∈
          [a.start_date, b.start_date].filter (fun d => d ≠ "") ∧
        ∀ d ∈ [a.start_date, b.start_date].filter (fun d => d ≠ ""),
          strLe (mergeEntry a b).start_date d = true) ∧
      (([a.finish_date, b.finish_date].filter (fun d => d ≠ "")) ≠ [] →
        (mergeEntry a b).finish_date ∈
          [a.finish_date, b.finish_date].filter (fun d => d ≠ "") ∧
        ∀ d ∈ [a.finish_date, b.finish_date].filter (fun d => d ≠ ""),
          strLe d (mergeEntry a b).finish_date = true)) ∧
    (∀ (e : GroupedData) (n : FlatData),
      (((mergeAndGroupByPerson e n).people.map
        (fun p => p.fullname)).Nodup) ∧
      ∀ pr ∈ (mergeAndGroupByPerson e n).people,
        List.Pairwise (fun x y : ProjectSummary =>
          strLe x.project y.project = true) pr.projects) := by
  constructor
  · intro a b
    have htasks : (mergeEntry a b).tasks =
        ((a.tasks ++ b.tasks).dedup).insertionSort
          (fun x y => strLe x y = true) := rfl
    have htot : (mergeEntry a b).total_tasks =
        ((a.tasks ++ b.tasks).dedup).length := rfl
    have hperm : List.Perm
        (((a.tasks ++ b.tasks).dedup).insertionSort
          (fun x y => strLe x y = true))
        ((a.tasks ++ b.tasks).dedup) :=
      List.perm_insertionSort _ _
    refine ⟨?_, ?_, ?_, rfl, ?_, ?_⟩
    · rw [htasks]
      ext x
      simp only [List.mem_toFinset, Finset.mem_union]
      rw [hperm.mem_iff]
      simp [List.mem_dedup]
    · rw [htasks]
      exact hperm.nodup_iff.mpr (List.nodup_dedup _)
    · rw [htot, ← List.toFinset_append, List.card_toFinset]
    · intro hne
      rcases hfd : [a.start_date, b.start_date].filter (fun d => d ≠ "")
        with _ | ⟨d0, ds⟩
      · exact absurd hfd hne
      · have hsd : (mergeEntry a b).start_date = pyMinOf d0 ds := by
          simp only [mergeEntry]
          simp only [hfd]
        rw [hsd]
        exact ⟨pyMinOf_mem d0 ds, fun d hd => pyMinOf_le d0 ds d hd⟩
    · intro hne
      rcases hfd : [a.finish_date, b.finish_date].filter (fun d => d ≠ "")
        with _ | ⟨d0, ds⟩
      · exact absurd hfd hne
      · have hsd : (mergeEntry a b).finish_date = pyMaxOf d0 ds := by
          simp only [mergeEntry]
          simp only [hfd]
        rw [hsd]
        exact ⟨pyMaxOf_mem d0 ds, fun d hd => pyMaxOf_ge d0 ds d hd⟩
  · intro e n
    constructor
    · have hmap : (mergeAndGroupByPerson e n).people.map (fun p => p.fullname) =
          ((groupByFullname
            (mergedEntries (flattenExisting e ++ ingestNew n))).insertionSort
              (fun x y => strLe x.1 y.1 = true)).map Prod.fst := by
        rw [mergeAndGroupByPerson]
        rw [List.map_map]
        rfl
      rw [hmap]
      have hperm : List.Perm
          ((groupByFullname
            (mergedEntries (flattenExisting e ++ ingestNew n))).insertionSort
              (fun x y => strLe x.1 y.1 = true))
          (groupByFullname (mergedEntries (flattenExisting e ++ ingestNew n))) :=
        List.perm_insertionSort _ _
      exact ((hperm.map Prod.fst).nodup_iff).mpr
        (groupByFullname_keys_nodup _)
    · intro pr hpr
      rw [mergeAndGroupByPerson] at hpr
      simp only [List.mem_map] at hpr
      obtain ⟨kv, -, hkv⟩ := hpr
      rw [← hkv]
      exact sorted_insertionSort_str (fun x : ProjectSummary => x.project) kv.2

/-- Witness for the hypothesis-bearing conjuncts of
`merge_collision_and_grouping` at concrete inputs. -/
theorem merge_collision_and_grouping_witness :
    (mergeEntry ⟨"ann", "p", "2024-01-05", "2024-01-08", 1, ["a"], 1⟩
        ⟨"ann", "p", "2024-01-02", "2024-01-09", 1, ["b"], 1⟩).start_date ∈
      (["2024-01-05", "2024-01-02"].filter (fun d => d ≠ "")) ∧
    ∀ pr ∈ (mergeAndGroupByPerson ⟨[]⟩
        ⟨[⟨"ann", "p", "2024-01-05", "2024-01-08", 1, ["a"], 1⟩]⟩).people,
      List.Pairwise (fun x y : ProjectSummary =>
        strLe x.project y.project = true) pr.projects := by
  constructor
  · exact ((merge_collision_and_grouping.1
      ⟨"ann", "p", "2024-01-05", "2024-01-08", 1, ["a"], 1⟩
      ⟨"ann", "p", "2024-01-02", "2024-01-09", 1, ["b"], 1⟩).2.2.2.2.1
      (by decide)).1
  · exact fun pr hpr => (merge_collision_and_grouping.2 ⟨[]⟩
      ⟨[⟨"ann", "p", "2024-01-05", "2024-01-08", 1, ["a"], 1⟩]⟩).2 pr hpr

/-! ## C4 — merge idempotence (corrected) -/

theorem pyMinStr_self (s : String) : pyMinStr s s = s := by
  rw [pyMinStr]; split <;> rfl

theorem pyMaxStr_self (s : String) : pyMaxStr s s = s := by
  rw [pyMaxStr]; split <;> rfl

theorem mergeEntry_self (e : PersonEntry)
    (hsort : List.Pairwise (fun x y => strLe x y = true) e.tasks)
    (hnd : e.tasks.Nodup)
    (htot : e.total_tasks = e.tasks.length)
    (hkom : e.kompleksitas = kompleksitasOf e.tasks.length) :
    mergeEntry e e = e := by
  haveI : IsAntisymm String (fun x y => strLe x y = true) :=
    ⟨fun _ _ => strLe_antisymm⟩
  haveI : IsTotal String (fun x y => strLe x y = true) :=
    ⟨fun x y => strLe_total x y⟩
  haveI : IsTrans String (fun x y => strLe x y = true) :=
    ⟨fun _ _ _ => strLe_trans⟩
  have hd : List.Perm ((e.tasks ++ e.tasks).dedup) e.tasks :=
    List.perm_of_nodup_nodup_toFinset_eq (List.nodup_dedup _) hnd
      (by ext x; simp)
  have hts : ((e.tasks ++ e.tasks).dedup).insertionSort
      (fun x y => strLe x y = true) = e.tasks := by
    refine List.eq_of_perm_of_sorted
      ((List.perm_insertionSort _ _).trans hd) ?_ hsort
    exact List.sorted_insertionSort _ _
  have hlen : ((e.tasks ++ e.tasks).dedup).length = e.tasks.length :=
    hd.length_eq
  cases e with
  | mk fullname project start_date finish_date total_tasks tasks kompleksitas =>
    simp only [mergeEntry, PersonEntry.mk.injEq] at *
    refine ⟨trivial, trivial, ?_, ?_, hlen.trans htot.symm, hts, hlen ▸ hkom.symm⟩
    · rcases hsd : [start_date, start_date].filter (fun d => d ≠ "")
        with _ | ⟨d0, ds⟩
      · rfl
      · -- filter of a two-identical list: either [] or [s, s]
        have : d0 = start_date ∧ ds = [start_date] ∨ False := by
          by_cases hs : start_date ≠ ""
          · simp [hs] at hsd
            exact Or.inl ⟨hsd.1.symm, hsd.2.symm⟩
          · simp [not_not.mp hs] at hsd
        rcases this with ⟨h1, h2⟩ | h
        · subst h1; subst h2
          show pyMinOf d0 [d0] = d0
          show pyMinStr d0 d0 = d0
          exact pyMinStr_self d0
        · cases h
    · rcases hsd : [finish_date, finish_date].filter (fun d => d ≠ "")
        with _ | ⟨d0, ds⟩
      · rfl
      · have : d0 = finish_date ∧ ds = [finish_date] ∨ False := by
          by_cases hs : finish_date ≠ ""
          · simp [hs] at hsd
            exact Or.inl ⟨hsd.1.symm, hsd.2.symm⟩
          · simp [not_not.mp hs] at hsd
        rcases this with ⟨h1, h2⟩ | h
        · subst h1; subst h2
          show pyMaxOf d0 [d0] = d0
          show pyMaxStr d0 d0 = d0
          exact pyMaxStr_self d0
        · cases h


theorem insertMerge_absent (d : List PersonEntry) (e : PersonEntry)
    (h : ∀ x ∈ d, ¬(x.fullname = e.fullname ∧ x.project = e.project)) :
    insertMerge d e = d ++ [e] := by
  rw [insertMerge, if_neg]
  intro hany
  rw [List.any_eq_true] at hany
  obtain ⟨x, hx, hcond⟩ := hany
  simp only [Bool.and_eq_true, decide_eq_true_eq] at hcond
  exact h x hx hcond

theorem insertMerge_self (d : List PersonEntry) (e : PersonEntry)
    (hmem : e ∈ d)
    (hinj : ∀ x ∈ d, x.fullname = e.fullname → x.project = e.project → x = e)
    (hme : mergeEntry e e = e) :
    insertMerge d e = d := by
  rw [insertMerge, if_pos]
  · have : ∀ x ∈ d,
        (if x.fullname = e.fullname && x.project = e.project
         then mergeEntry x e else x) = x := by
      intro x hx
      by_cases hc : (x.fullname = e.fullname && x.project = e.project) = true
      · rw [if_pos hc]
        simp only [Bool.and_eq_true, decide_eq_true_eq] at hc
        rw [hinj x hx hc.1 hc.2, hme]
      · rw [if_neg hc]
    calc d.map _ = d.map id := List.map_congr_left this
    _ = d := List.map_id d
  · rw [List.any_eq_true]
    exact ⟨e, hmem, by simp⟩

theorem foldl_insertMerge_fresh :
    ∀ (M acc : List PersonEntry),
      (((acc ++ M).map entryKey)).Nodup →
      M.foldl insertMerge acc = acc ++ M := by
  intro M
  induction M with
  | nil => intro acc _; simp
  | cons e M ih =>
    intro acc hnd
    have hkey : ∀ x ∈ acc, ¬(x.fullname = e.fullname ∧ x.project = e.project) := by
      intro x hx hcond
      have h1 : entryKey x ∈ (acc.map entryKey) := List.mem_map_of_mem _ hx
      have hx2 : entryKey x = entryKey e := by
        rw [entryKey, entryKey, hcond.1, hcond.2]
      rw [List.map_append] at hnd
      have hdisj := List.disjoint_of_nodup_append hnd
      exact hdisj h1 (by rw [hx2]; simp [entryKey])
    rw [List.foldl_cons, insertMerge_absent acc e hkey]
    have := ih (acc ++ [e]) (by simpa using hnd)
    simpa using this

theorem foldl_insertMerge_self :
    ∀ (M d : List PersonEntry),
      (∀ e ∈ M, e ∈ d) →
      (∀ e ∈ M, mergeEntry e e = e) →
      (∀ x ∈ d, ∀ e ∈ M, x.fullname = e.fullname → x.project = e.project → x = e) →
      M.foldl insertMerge d = d := by
  intro M
  induction M with
  | nil => intro d _ _ _; rfl
  | cons e M ih =>
    intro d hmem hme hinj
    rw [List.foldl_cons,
      insertMerge_self d e (hmem e (by simp))
        (fun x hx h1 h2 => hinj x hx e (by simp) h1 h2)
        (hme e (by simp))]
    exact ih d (fun x hx => hmem x (by simp [hx]))
      (fun x hx => hme x (by simp [hx]))
      (fun x hx f hf => hinj x hx f (by simp [hf]))


theorem toProjectSummary_flatOf (n : String) (ps : ProjectSummary)
    (hfix : ps.project = pyLower ps.project) :
    toProjectSummary (flatOf n ps) = ps := by
  rw [toProjectSummary, flatOf]
  simp only [← hfix]

theorem foldl_groupStep_block (es : List PersonEntry) :
    ∀ (acc : List (String × List ProjectSummary)) (n : String)
      (cur : List ProjectSummary),
      (∀ e ∈ es, e.fullname = n) →
      (∀ kv ∈ acc, kv.1 ≠ n) →
      es.foldl groupStep (acc ++ [(n, cur)]) =
        acc ++ [(n, cur ++ es.map toProjectSummary)] := by
  induction es with
  | nil => intro acc n cur _ _; simp
  | cons e es ih =>
    intro acc n cur hall hacc
    have hfn : e.fullname = n := hall e (by simp)
    have hstep : groupStep (acc ++ [(n, cur)]) e =
        acc ++ [(n, cur ++ [toProjectSummary e])] := by
      rw [groupStep, if_pos]
      · rw [List.map_append]
        congr 1
        · refine (List.map_congr_left ?_).trans (List.map_id acc)
          intro kv hkv
          have hne : ¬ (kv.1 = e.fullname) := by
            rw [hfn]; exact hacc kv hkv
          rw [if_neg hne]
          rfl
        · simp [hfn]
      · rw [List.any_eq_true]
        refine ⟨(n, cur), by simp, by simp [hfn]⟩
    rw [List.foldl_cons, hstep]
    have := ih acc n (cur ++ [toProjectSummary e])
      (fun x hx => hall x (by simp [hx])) hacc
    rw [this, List.map_cons]
    simp

theorem foldl_groupStep_people (people : List PersonRecord) :
    ∀ acc : List (String × List ProjectSummary),
      (∀ p ∈ people, p.fullname = pyLower p.fullname) →
      (∀ kv ∈ acc, ∀ p ∈ people, kv.1 ≠ p.fullname) →
      List.Pairwise (fun x y => x.fullname ≠ y.fullname) people →
      (∀ p ∈ people, p.projects ≠ []) →
      (people.flatMap (fun p => p.projects.map (flatOf p.fullname))).foldl
          groupStep acc =
        acc ++ people.map (fun p =>
          (p.fullname,
           (p.projects.map (flatOf p.fullname)).map toProjectSummary)) := by
  induction people with
  | nil => intro acc _ _ _ _; simp
  | cons p rest ih =>
    intro acc hlow hacc hpw hne
    simp only [List.flatMap_cons, List.foldl_append]
    have hplow : p.fullname = pyLower p.fullname := hlow p (by simp)
    have hblockname : ∀ e ∈ p.projects.map (flatOf p.fullname),
        e.fullname = p.fullname := by
      intro e he
      rw [List.mem_map] at he
      obtain ⟨ps, -, rfl⟩ := he
      rw [flatOf, ← hplow]
    obtain ⟨ps0, psrest, hps⟩ :=
      List.exists_cons_of_ne_nil (hne p (by simp))
    · have hblock : (p.projects.map (flatOf p.fullname)).foldl groupStep acc =
          acc ++ [(p.fullname,
            (p.projects.map (flatOf p.fullname)).map toProjectSummary)] := by
        rw [hps, List.map_cons, List.foldl_cons]
        have hstep0 : groupStep acc (flatOf p.fullname ps0) =
            acc ++ [(p.fullname, [toProjectSummary (flatOf p.fullname ps0)])] := by
          rw [groupStep, if_neg]
          · congr 2
            rw [flatOf, ← hplow]
          · intro hany
            rw [List.any_eq_true] at hany
            obtain ⟨kv, hkv, hkvf⟩ := hany
            simp only [decide_eq_true_eq] at hkvf
            have : (flatOf p.fullname ps0).fullname = p.fullname := by
              rw [flatOf, ← hplow]
            rw [this] at hkvf
            exact hacc kv hkv p (by simp) hkvf
        rw [hstep0]
        rw [foldl_groupStep_block (psrest.map (flatOf p.fullname)) acc p.fullname
          [toProjectSummary (flatOf p.fullname ps0)]
          (fun e he => by
            rw [List.mem_map] at he
            obtain ⟨ps, -, rfl⟩ := he
            rw [flatOf, ← hplow])
          (fun kv hkv => hacc kv hkv p (by simp))]
        rw [List.map_cons]
        simp
      rw [hblock]
      have hrest := ih (acc ++ [(p.fullname,
          (p.projects.map (flatOf p.fullname)).map toProjectSummary)])
        (fun q hq => hlow q (by simp [hq]))
        (by
          intro kv hkv q hq
          rw [List.mem_append] at hkv
          rcases hkv with hkv | hkv
          · exact hacc kv hkv q (by simp [hq])
          · simp only [List.mem_singleton] at hkv
            subst hkv
            have := (List.pairwise_cons.mp hpw).1 q hq
            simpa using this)
        (List.pairwise_cons.mp hpw).2
        (fun q hq => hne q (by simp [hq]))
      rw [hrest, List.map_cons]
      simp


theorem mem_flattenExisting {D : GroupedData} {e : PersonEntry}
    (h : e ∈ flattenExisting D) :
    ∃ p ∈ D.people, ∃ ps ∈ p.projects, e = flatOf p.fullname ps := by
  rw [flattenExisting, List.mem_flatMap] at h
  obtain ⟨p, hp, he⟩ := h
  rw [List.mem_map] at he
  obtain ⟨ps, hps, rfl⟩ := he
  exact ⟨p, hp, ps, hps, rfl⟩

theorem pyLower_fix {x : String} (h : x = pyLower x) :
    pyLower (pyLower x) = pyLower x := by
  rw [← h]
  exact h.symm

theorem flatten_keys_nodup_aux :
    ∀ people : List PersonRecord,
      List.Pairwise (fun x y => x.fullname ≠ y.fullname) people →
      (∀ p ∈ people, p.fullname = pyLower p.fullname) →
      (∀ p ∈ people,
        List.Pairwise (fun x y : ProjectSummary => x.project ≠ y.project)
          p.projects) →
      (∀ p ∈ people, ∀ ps ∈ p.projects, ps.project = pyLower ps.project) →
      ((people.flatMap (fun p => p.projects.map (flatOf p.fullname))).map
        entryKey).Nodup := by
  intro people
  induction people with
  | nil => intro _ _ _ _; simp
  | cons p rest ih =>
    intro hpw hlow hppw hpfix
    simp only [List.flatMap_cons, List.map_append]
    rw [List.nodup_append]
    refine ⟨?_, ?_, ?_⟩
    · rw [List.map_map]
      show List.Pairwise (fun a b => a ≠ b) _
      rw [List.pairwise_map]
      refine List.Pairwise.imp_of_mem ?_ (hppw p (by simp))
      intro a b ha hb hne heq
      simp only [Function.comp, entryKey, flatOf, Prod.mk.injEq] at heq
      rw [← hpfix p (by simp) a ha, ← hpfix p (by simp) b hb] at heq
      exact hne heq.2
    · exact ih (List.pairwise_cons.mp hpw).2
        (fun q hq => hlow q (by simp [hq]))
        (fun q hq => hppw q (by simp [hq]))
        (fun q hq => hpfix q (by simp [hq]))
    · intro k hk hk2
      rw [List.map_map, List.mem_map] at hk
      obtain ⟨ps, hps, rfl⟩ := hk
      rw [List.mem_map] at hk2
      obtain ⟨e, he, hke⟩ := hk2
      rw [List.mem_flatMap] at he
      obtain ⟨q, hq, he2⟩ := he
      rw [List.mem_map] at he2
      obtain ⟨ps2, hps2, rfl⟩ := he2
      have h1 : (((entryKey ∘ flatOf p.fullname) ps)).1 = p.fullname := by
        simp only [Function.comp, entryKey, flatOf]
        exact (hlow p (by simp)).symm
      have h2 : (entryKey (flatOf q.fullname ps2)).1 = q.fullname := by
        simp only [entryKey, flatOf]
        exact (hlow q (by simp [hq])).symm
      have hfn : p.fullname = q.fullname := by
        rw [← h1, ← h2, hke]
      exact (List.pairwise_cons.mp hpw).1 q hq hfn

theorem flatten_keys_nodup (D : GroupedData) (hc : datasetCanonical D) :
    ((flattenExisting D).map entryKey).Nodup := by
  rw [flattenExisting]
  refine flatten_keys_nodup_aux D.people
    (hc.1.imp (fun h => h.2))
    (fun p hp => ((hc.2 p hp)).1)
    (fun p hp => ((hc.2 p hp)).2.2.1.imp (fun h => h.2))
    (fun p hp ps hps => ((hc.2 p hp)).2.2.2 ps hps |>.1)

theorem ingestNew_flatten (D : GroupedData) (hc : datasetCanonical D) :
    ingestNew (flattenAsNew D) = flattenExisting D := by
  rw [ingestNew, flattenAsNew]
  refine (List.map_congr_left ?_).trans (List.map_id _)
  intro e he
  obtain ⟨p, hp, ps, hps, rfl⟩ := mem_flattenExisting he
  have h1 : pyLower (flatOf p.fullname ps).fullname =
      (flatOf p.fullname ps).fullname := by
    show pyLower (pyLower p.fullname) = pyLower p.fullname
    exact pyLower_fix ((hc.2 p hp).1)
  have h2 : pyLower (flatOf p.fullname ps).project =
      (flatOf p.fullname ps).project := by
    show pyLower (pyLower ps.project) = pyLower ps.project
    exact pyLower_fix (((hc.2 p hp)).2.2.2 ps hps |>.1)
  rw [h1, h2]
  rfl

theorem mergeEntry_self_of_flatten (D : GroupedData) (hc : datasetCanonical D)
    {e : PersonEntry} (he : e ∈ flattenExisting D) : mergeEntry e e = e := by
  obtain ⟨p, hp, ps, hps, rfl⟩ := mem_flattenExisting he
  have hcs := ((hc.2 p hp)).2.2.2 ps hps
  exact mergeEntry_self _ hcs.2.1 hcs.2.2.1
    (by show ps.total_tasks = ps.tasks.length; exact hcs.2.2.2.1)
    (by show ps.kompleksitas = kompleksitasOf ps.tasks.length
        exact hcs.2.2.2.2)

theorem mergedEntries_flatten_self (D : GroupedData) (hc : datasetCanonical D) :
    mergedEntries (flattenExisting D ++ ingestNew (flattenAsNew D)) =
      flattenExisting D := by
  rw [ingestNew_flatten D hc, mergedEntries, List.foldl_append]
  have hnd := flatten_keys_nodup D hc
  have h1 : (flattenExisting D).foldl insertMerge [] = flattenExisting D :=
    foldl_insertMerge_fresh _ [] (by simpa using hnd)
  rw [h1]
  refine foldl_insertMerge_self _ _ (fun e he => he)
    (fun e he => mergeEntry_self_of_flatten D hc he) ?_
  intro x hx e he hf hp
  refine List.inj_on_of_nodup_map hnd hx he ?_
  rw [entryKey, entryKey, hf, hp]

theorem grouped_flatten (D : GroupedData) (hc : datasetCanonical D) :
    groupByFullname (flattenExisting D) =
      D.people.map (fun p => (p.fullname, p.projects)) := by
  rw [groupByFullname, flattenExisting]
  have hg := foldl_groupStep_people D.people []
    (fun p hp => (hc.2 p hp).1)
    (by intro kv hkv; cases hkv)
    (hc.1.imp (fun h => h.2))
    (fun p hp => (hc.2 p hp).2.1)
  rw [hg, List.nil_append]
  refine List.map_congr_left ?_
  intro p hp
  congr 1
  rw [List.map_map]
  refine (List.map_congr_left ?_).trans (List.map_id _)
  intro ps hps
  show toProjectSummary (flatOf p.fullname ps) = id ps
  rw [toProjectSummary_flatOf p.fullname ps ((hc.2 p hp).2.2.2 ps hps).1]
  rfl

/-- C4 (counterexample): merge is not idempotent on arbitrary datasets —
the collision pass sorts and deduplicates task lists, so a dataset whose
task list is not sorted (here `["b", "a"]`) is changed by merging it with
itself: the output carries `["a", "b"]`. -/
theorem merge_idempotence_counterexample :
    mergeAndGroupByPerson
        ⟨[⟨"ann", [⟨"p", "", "", 2, 2, ["b", "a"]⟩]⟩]⟩
        ⟨[⟨"ann", "p", "", "", 2, ["b", "a"], 2⟩]⟩ ≠
      ⟨[⟨"ann", [⟨"p", "", "", 2, 2, ["b", "a"]⟩]⟩]⟩ := by decide

/-- C4 (amended): merging a dataset with itself yields the same dataset
for every dataset already in the merge's canonical output shape — people
strictly sorted by fullname, lowercase keys, nonempty project lists
strictly sorted by project name, sorted duplicate-free task lists, and
totals/complexity derived from the task lists.  On such a `D`, merging
`D` with its own flat view reproduces `D` exactly. -/
theorem merge_self_of_canonical (D : GroupedData) (hc : datasetCanonical D) :
    mergeAndGroupByPerson D (flattenAsNew D) = D := by
  have hbody : mergeAndGroupByPerson D (flattenAsNew D) =
      ⟨((groupByFullname (mergedEntries
          (flattenExisting D ++ ingestNew (flattenAsNew D)))).insertionSort
            (fun a b => strLe a.1 b.1 = true)).map
        (fun kv =>
          { fullname := kv.1
            projects := kv.2.insertionSort
              (fun a b => strLe a.project b.project = true) })⟩ := rfl
  rw [hbody, mergedEntries_flatten_self D hc, grouped_flatten D hc]
  have hsorted : List.Pairwise
      (fun a b : String × List ProjectSummary => strLe a.1 b.1 = true)
      (D.people.map (fun p => (p.fullname, p.projects))) := by
    rw [List.pairwise_map]
    exact hc.1.imp (fun h => h.1)
  rw [List.Sorted.insertionSort_eq hsorted, List.map_map]
  have hfinal : ∀ p ∈ D.people,
      ((fun kv : String × List ProjectSummary =>
          ({ fullname := kv.1
             projects := kv.2.insertionSort
               (fun a b => strLe a.project b.project = true) } : PersonRecord)) ∘
        (fun p => (p.fullname, p.projects))) p = id p := by
    intro p hp
    simp only [Function.comp, id]
    have hps : List.Pairwise
        (fun a b : ProjectSummary => strLe a.project b.project = true)
        p.projects :=
      ((hc.2 p hp)).2.2.1.imp (fun h => h.1)
    rw [List.Sorted.insertionSort_eq hps]
  rw [List.map_congr_left hfinal, List.map_id]



/-- Witness for `merge_self_of_canonical` at a concrete canonical
dataset. -/
theorem merge_self_of_canonical_witness :
    mergeAndGroupByPerson
        ⟨[⟨"ann", [⟨"p", "2024-01-01", "2024-01-02", 1, 1, ["a"]⟩]⟩]⟩
        (flattenAsNew
          ⟨[⟨"ann", [⟨"p", "2024-01-01", "2024-01-02", 1, 1, ["a"]⟩]⟩]⟩) =
      ⟨[⟨"ann", [⟨"p", "2024-01-01", "2024-01-02", 1, 1, ["a"]⟩]⟩]⟩ :=
  merge_self_of_canonical
    ⟨[⟨"ann", [⟨"p", "2024-01-01", "2024-01-02", 1, 1, ["a"]⟩]⟩]⟩
    (by
      unfold datasetCanonical personCanonical summaryCanonical
      decide)


/-! ### C8: `try_parse_date` on `M/D/Y` tokens -/

theorem pyIsDigit_digitCharOf (a : Nat) : pyIsDigit (digitCharOf a) = true := by
  have h : a % 10 < 10 := Nat.mod_lt _ (by omega)
  rw [digitCharOf]
  revert h
  generalize a % 10 = b
  intro h
  interval_cases b <;> decide

theorem digitVal_digitCharOf (a : Nat) : digitVal (digitCharOf a) = a % 10 := by
  have h : a % 10 < 10 := Nat.mod_lt _ (by omega)
  rw [digitCharOf]
  revert h
  generalize a % 10 = b
  intro h
  interval_cases b <;> rfl

theorem mdyChar_digitCharOf (a : Nat) : mdyChar (digitCharOf a) = true := by
  rw [mdyChar, pyIsDigit_digitCharOf]
  rfl

theorem mdyChar_not_space {c : Char} (h : mdyChar c = true) :
    pyIsSpace c = false := by
  cases hs : pyIsSpace c with
  | false => rfl
  | true =>
    exfalso
    rw [pyIsSpace] at hs
    simp only [Bool.or_eq_true, decide_eq_true_eq] at hs
    rcases hs with ((((h1 | h1) | h1) | h1) | h1) | h1 <;>
      (subst h1; exact absurd h (by decide))

theorem mdyChar_not_alpha {c : Char} (h : mdyChar c = true) :
    pyIsAlpha c = false := by
  rw [mdyChar, Bool.or_eq_true] at h
  cases ha : pyIsAlpha c with
  | false => rfl
  | true =>
    exfalso
    rw [pyIsAlpha] at ha
    rw [pyIsDigit] at h
    simp only [Bool.or_eq_true, Bool.and_eq_true, decide_eq_true_eq] at ha h
    rcases h with ⟨h1, h2⟩ | h1
    · have h1n : (48 : Nat) ≤ c.toNat := h1
      have h2n : c.toNat ≤ 57 := h2
      rcases ha with ⟨ha1, ha2⟩ | ⟨ha1, ha2⟩
      · have : (97 : Nat) ≤ c.toNat := ha1
        omega
      · have : (65 : Nat) ≤ c.toNat := ha1
        have h90 : c.toNat ≤ 90 := ha2
        omega
    · subst h1
      exact absurd ha (by decide)

theorem mdyChar_ne_of (c0 : Char) (hc0 : mdyChar c0 = false)
    {c : Char} (h : mdyChar c = true) : c ≠ c0 := by
  intro he
  subst he
  rw [h] at hc0
  exact absurd hc0 (by simp)

theorem digitCharOf_ne_slash (a : Nat) : digitCharOf a ≠ '/' := by
  have h : a % 10 < 10 := Nat.mod_lt _ (by omega)
  rw [digitCharOf]
  revert h
  generalize a % 10 = b
  intro h
  interval_cases b <;> decide

theorem monthCands_one_digit (m : Nat) (h1 : 1 ≤ m) (h2 : m ≤ 9)
    (r : List Char) :
    monthCands (digitCharOf m :: '/' :: r) = [(m, '/' :: r)] := by
  interval_cases m <;> rfl

theorem monthCands_padded (m : Nat) (h1 : 1 ≤ m) (h2 : m ≤ 9)
    (r : List Char) :
    monthCands ('0' :: digitCharOf m :: r) = [(m, r)] := by
  interval_cases m <;> rfl

theorem monthCands_two_digit (m : Nat) (h1 : 10 ≤ m) (h2 : m ≤ 12)
    (r : List Char) :
    monthCands (digitCharOf (m / 10) :: digitCharOf m :: r) =
      [(m, r), (1, digitCharOf m :: r)] := by
  interval_cases m <;> rfl

theorem dayCands_one_digit (d : Nat) (h1 : 1 ≤ d) (h2 : d ≤ 9)
    (r : List Char) :
    dayCands (digitCharOf d :: '/' :: r) = [(d, '/' :: r)] := by
  interval_cases d <;> rfl

theorem dayCands_padded (d : Nat) (h1 : 1 ≤ d) (h2 : d ≤ 9)
    (r : List Char) :
    dayCands ('0' :: digitCharOf d :: r) = [(d, r)] := by
  interval_cases d <;> rfl

theorem dayCands_two_digit (d : Nat) (h1 : 10 ≤ d) (h2 : d ≤ 31)
    (r : List Char) :
    dayCands (digitCharOf (d / 10) :: digitCharOf d :: r) =
      [(d, r), (d / 10, digitCharOf d :: r)] := by
  interval_cases d <;> rfl
theorem digitsCands_two_pad2 (y : Nat) (hy : y ≤ 99) :
    digitsCands 2 (pad2 y) = [(y, [])] := by
  rw [digitsCands, pad2]
  simp only [List.take, List.drop, List.length_cons, List.length_nil,
    List.all_cons, List.all_nil, pyIsDigit_digitCharOf, Bool.and_true,
    Bool.true_and, digitsToNat, List.foldl_cons, List.foldl_nil,
    digitVal_digitCharOf]
  norm_num
  omega

theorem digitsCands_four_pad2 (y : Nat) :
    digitsCands 4 (pad2 y) = [] := by
  rw [digitsCands, pad2]
  simp

theorem digitsCands_four_pad4 (Y : Nat) (h1 : 1000 ≤ Y) (h2 : Y ≤ 9999) :
    digitsCands 4 (pad4 Y) = [(Y, [])] := by
  rw [digitsCands, pad4]
  simp only [List.take, List.drop, List.length_cons, List.length_nil,
    List.all_cons, List.all_nil, pyIsDigit_digitCharOf, Bool.and_true,
    Bool.true_and, digitsToNat, List.foldl_cons, List.foldl_nil,
    digitVal_digitCharOf]
  norm_num
  omega

theorem runFmt_nil_nil (pd : DateParts) : runFmt [] pd [] = some pd := rfl

theorem runFmt_dy_pad2 (pd : DateParts) (y : Nat) (hy : y ≤ 99) :
    runFmt [FmtItem.dy] pd (pad2 y) =
      some { pd with year := y2kPivot y } := by
  rw [runFmt, digitsCands_two_pad2 y hy]
  rfl

theorem runFmt_dY_pad2 (pd : DateParts) (y : Nat) :
    runFmt [FmtItem.dY] pd (pad2 y) = none := by
  rw [runFmt, digitsCands_four_pad2 y]
  rfl

theorem runFmt_dY_pad4 (pd : DateParts) (Y : Nat) (h1 : 1000 ≤ Y)
    (h2 : Y ≤ 9999) :
    runFmt [FmtItem.dY] pd (pad4 Y) = some { pd with year := Y } := by
  rw [runFmt, digitsCands_four_pad4 Y h1 h2]
  rfl

theorem runFmt_lit_slash (rest : List FmtItem) (pd : DateParts)
    (r : List Char) :
    runFmt (FmtItem.lit '/' :: rest) pd ('/' :: r) = runFmt rest pd r := by
  rw [runFmt]
  simp

theorem runFmt_lit_slash_digit (rest : List FmtItem) (pd : DateParts)
    (a : Nat) (r : List Char) :
    runFmt (FmtItem.lit '/' :: rest) pd (digitCharOf a :: r) = none := by
  rw [runFmt]
  simp [digitCharOf_ne_slash a]

theorem runFmt_dd_dy (pd : DateParts) (pdg : Bool) (d y : Nat)
    (hd1 : 1 ≤ d) (hd2 : d ≤ 31) (hy : y ≤ 99) :
    runFmt [FmtItem.dd, FmtItem.lit '/', FmtItem.dy] pd
        (compRender pdg d ++ '/' :: pad2 y) =
      some { pd with day := d, year := y2kPivot y } := by
  by_cases hlt : d < 10
  · rw [compRender, if_pos hlt]
    cases pdg with
    | false =>
      simp only [if_neg Bool.false_ne_true, List.cons_append, List.nil_append]
      rw [runFmt, dayCands_one_digit d hd1 (by omega)]
      simp only [List.findSome?]
      rw [runFmt_lit_slash, runFmt_dy_pad2 _ y hy]
    | true =>
      simp only [if_true, List.cons_append, List.nil_append]
      rw [runFmt, dayCands_padded d hd1 (by omega)]
      simp only [List.findSome?]
      rw [runFmt_lit_slash, runFmt_dy_pad2 _ y hy]
  · rw [compRender, if_neg hlt]
    simp only [List.cons_append, List.nil_append]
    rw [runFmt, dayCands_two_digit d (by omega) hd2]
    simp only [List.findSome?]
    rw [runFmt_lit_slash, runFmt_dy_pad2 _ y hy]

theorem runFmt_dd_dY_pad2 (pd : DateParts) (pdg : Bool) (d y : Nat)
    (hd1 : 1 ≤ d) (hd2 : d ≤ 31) :
    runFmt [FmtItem.dd, FmtItem.lit '/', FmtItem.dY] pd
        (compRender pdg d ++ '/' :: pad2 y) = none := by
  by_cases hlt : d < 10
  · rw [compRender, if_pos hlt]
    cases pdg with
    | false =>
      simp only [if_neg Bool.false_ne_true, List.cons_append, List.nil_append]
      rw [runFmt, dayCands_one_digit d hd1 (by omega)]
      simp only [List.findSome?]
      rw [runFmt_lit_slash, runFmt_dY_pad2 _ y]
    | true =>
      simp only [if_true, List.cons_append, List.nil_append]
      rw [runFmt, dayCands_padded d hd1 (by omega)]
      simp only [List.findSome?]
      rw [runFmt_lit_slash, runFmt_dY_pad2 _ y]
  · rw [compRender, if_neg hlt]
    simp only [List.cons_append, List.nil_append]
    rw [runFmt, dayCands_two_digit d (by omega) hd2]
    simp only [List.findSome?]
    rw [runFmt_lit_slash, runFmt_dY_pad2 _ y, runFmt_lit_slash_digit]

theorem runFmt_dd_dY_pad4 (pd : DateParts) (pdg : Bool) (d Y : Nat)
    (hd1 : 1 ≤ d) (hd2 : d ≤ 31) (h1 : 1000 ≤ Y) (h2 : Y ≤ 9999) :
    runFmt [FmtItem.dd, FmtItem.lit '/', FmtItem.dY] pd
        (compRender pdg d ++ '/' :: pad4 Y) =
      some { pd with day := d, year := Y } := by
  by_cases hlt : d < 10
  · rw [compRender, if_pos hlt]
    cases pdg with
    | false =>
      simp only [if_neg Bool.false_ne_true, List.cons_append, List.nil_append]
      rw [runFmt, dayCands_one_digit d hd1 (by omega)]
      simp only [List.findSome?]
      rw [runFmt_lit_slash, runFmt_dY_pad4 _ Y h1 h2]
    | true =>
      simp only [if_true, List.cons_append, List.nil_append]
      rw [runFmt, dayCands_padded d hd1 (by omega)]
      simp only [List.findSome?]
      rw [runFmt_lit_slash, runFmt_dY_pad4 _ Y h1 h2]
  · rw [compRender, if_neg hlt]
    simp only [List.cons_append, List.nil_append]
    rw [runFmt, dayCands_two_digit d (by omega) hd2]
    simp only [List.findSome?]
    rw [runFmt_lit_slash, runFmt_dY_pad4 _ Y h1 h2]

theorem runFmt_mdy_dy (pm pdg : Bool) (m d y : Nat)
    (hm1 : 1 ≤ m) (hm2 : m ≤ 12) (hd1 : 1 ≤ d) (hd2 : d ≤ 31) (hy : y ≤ 99) :
    runFmt [FmtItem.dm, FmtItem.lit '/', FmtItem.dd, FmtItem.lit '/',
        FmtItem.dy] {} (mdyToken pm m pdg d (pad2 y)) =
      some ⟨y2kPivot y, m, d⟩ := by
  rw [mdyToken]
  by_cases hlt : m < 10
  · rw [compRender, if_pos hlt]
    cases pm with
    | false =>
      simp only [if_neg Bool.false_ne_true, List.cons_append, List.nil_append]
      rw [runFmt, monthCands_one_digit m hm1 (by omega)]
      simp only [List.findSome?]
      rw [runFmt_lit_slash, runFmt_dd_dy _ pdg d y hd1 hd2 hy]
    | true =>
      simp only [if_true, List.cons_append, List.nil_append]
      rw [runFmt, monthCands_padded m hm1 (by omega)]
      simp only [List.findSome?]
      rw [runFmt_lit_slash, runFmt_dd_dy _ pdg d y hd1 hd2 hy]
  · rw [compRender, if_neg hlt]
    simp only [List.cons_append, List.nil_append]
    rw [runFmt, monthCands_two_digit m (by omega) hm2]
    simp only [List.findSome?]
    rw [runFmt_lit_slash, runFmt_dd_dy _ pdg d y hd1 hd2 hy]

theorem runFmt_mdy_dY_pad2 (pm pdg : Bool) (m d y : Nat)
    (hm1 : 1 ≤ m) (hm2 : m ≤ 12) (hd1 : 1 ≤ d) (hd2 : d ≤ 31) :
    runFmt [FmtItem.dm, FmtItem.lit '/', FmtItem.dd, FmtItem.lit '/',
        FmtItem.dY] {} (mdyToken pm m pdg d (pad2 y)) = none := by
  rw [mdyToken]
  by_cases hlt : m < 10
  · rw [compRender, if_pos hlt]
    cases pm with
    | false =>
      simp only [if_neg Bool.false_ne_true, List.cons_append, List.nil_append]
      rw [runFmt, monthCands_one_digit m hm1 (by omega)]
      simp only [List.findSome?]
      rw [runFmt_lit_slash, runFmt_dd_dY_pad2 _ pdg d y hd1 hd2]
    | true =>
      simp only [if_true, List.cons_append, List.nil_append]
      rw [runFmt, monthCands_padded m hm1 (by omega)]
      simp only [List.findSome?]
      rw [runFmt_lit_slash, runFmt_dd_dY_pad2 _ pdg d y hd1 hd2]
  · rw [compRender, if_neg hlt]
    simp only [List.cons_append, List.nil_append]
    rw [runFmt, monthCands_two_digit m (by omega) hm2]
    simp only [List.findSome?]
    rw [runFmt_lit_slash, runFmt_dd_dY_pad2 _ pdg d y hd1 hd2,
      runFmt_lit_slash_digit]

theorem runFmt_mdy_dY_pad4 (pm pdg : Bool) (m d Y : Nat)
    (hm1 : 1 ≤ m) (hm2 : m ≤ 12) (hd1 : 1 ≤ d) (hd2 : d ≤ 31)
    (h1 : 1000 ≤ Y) (h2 : Y ≤ 9999) :
    runFmt [FmtItem.dm, FmtItem.lit '/', FmtItem.dd, FmtItem.lit '/',
        FmtItem.dY] {} (mdyToken pm m pdg d (pad4 Y)) =
      some ⟨Y, m, d⟩ := by
  rw [mdyToken]
  by_cases hlt : m < 10
  · rw [compRender, if_pos hlt]
    cases pm with
    | false =>
      simp only [if_neg Bool.false_ne_true, List.cons_append, List.nil_append]
      rw [runFmt, monthCands_one_digit m hm1 (by omega)]
      simp only [List.findSome?]
      rw [runFmt_lit_slash, runFmt_dd_dY_pad4 _ pdg d Y hd1 hd2 h1 h2]
    | true =>
      simp only [if_true, List.cons_append, List.nil_append]
      rw [runFmt, monthCands_padded m hm1 (by omega)]
      simp only [List.findSome?]
      rw [runFmt_lit_slash, runFmt_dd_dY_pad4 _ pdg d Y hd1 hd2 h1 h2]
  · rw [compRender, if_neg hlt]
    simp only [List.cons_append, List.nil_append]
    rw [runFmt, monthCands_two_digit m (by omega) hm2]
    simp only [List.findSome?]
    rw [runFmt_lit_slash, runFmt_dd_dY_pad4 _ pdg d Y hd1 hd2 h1 h2]

theorem daysInMonth_le_31 (y m : Nat) : daysInMonth y m ≤ 31 := by
  rw [daysInMonth]
  split
  · split <;> omega
  · split <;> omega

theorem y2kPivot_ge (y : Nat) : 1 ≤ y2kPivot y := by
  rw [y2kPivot]
  split <;> omega

theorem y2kPivot_le (y : Nat) (hy : y ≤ 99) : y2kPivot y ≤ 9999 := by
  rw [y2kPivot]
  split <;> omega

theorem validDateParts_mk (yv m d : Nat) (hy1 : 1 ≤ yv) (hy2 : yv ≤ 9999)
    (hm1 : 1 ≤ m) (hm2 : m ≤ 12) (hd1 : 1 ≤ d)
    (hd2 : d ≤ daysInMonth yv m) :
    validDateParts ⟨yv, m, d⟩ = true := by
  rw [validDateParts]
  simp [hy1, hy2, hm1, hm2, hd1, hd2]

theorem strptimeIso_mdy_y (pm pdg : Bool) (m d y : Nat)
    (hm1 : 1 ≤ m) (hm2 : m ≤ 12) (hd1 : 1 ≤ d)
    (hd2 : d ≤ daysInMonth (y2kPivot y) m) (hy : y ≤ 99) :
    strptimeIso "%m/%d/%y" (mdyToken pm m pdg d (pad2 y)) =
      some (isoOfDateParts ⟨y2kPivot y, m, d⟩) := by
  rw [strptimeIso]
  have hcf : compileFormat ("%m/%d/%y".data) =
      [FmtItem.dm, FmtItem.lit '/', FmtItem.dd, FmtItem.lit '/',
       FmtItem.dy] := rfl
  rw [hcf, runFmt_mdy_dy pm pdg m d y hm1 hm2 hd1
    (le_trans hd2 (daysInMonth_le_31 _ _)) hy]
  dsimp only
  rw [validDateParts_mk _ _ _ (y2kPivot_ge y) (y2kPivot_le y hy) hm1 hm2 hd1 hd2]
  simp

theorem strptimeIso_mdy_Y_pad2 (pm pdg : Bool) (m d y : Nat)
    (hm1 : 1 ≤ m) (hm2 : m ≤ 12) (hd1 : 1 ≤ d) (hd2 : d ≤ 31) :
    strptimeIso "%m/%d/%Y" (mdyToken pm m pdg d (pad2 y)) = none := by
  rw [strptimeIso]
  have hcf : compileFormat ("%m/%d/%Y".data) =
      [FmtItem.dm, FmtItem.lit '/', FmtItem.dd, FmtItem.lit '/',
       FmtItem.dY] := rfl
  rw [hcf, runFmt_mdy_dY_pad2 pm pdg m d y hm1 hm2 hd1 hd2]

theorem strptimeIso_mdy_Y_pad4 (pm pdg : Bool) (m d Y : Nat)
    (hm1 : 1 ≤ m) (hm2 : m ≤ 12) (hd1 : 1 ≤ d)
    (hd2 : d ≤ daysInMonth Y m) (h1 : 1000 ≤ Y) (h2 : Y ≤ 9999) :
    strptimeIso "%m/%d/%Y" (mdyToken pm m pdg d (pad4 Y)) =
      some (isoOfDateParts ⟨Y, m, d⟩) := by
  rw [strptimeIso]
  have hcf : compileFormat ("%m/%d/%Y".data) =
      [FmtItem.dm, FmtItem.lit '/', FmtItem.dd, FmtItem.lit '/',
       FmtItem.dY] := rfl
  rw [hcf, runFmt_mdy_dY_pad4 pm pdg m d Y hm1 hm2 hd1
    (le_trans hd2 (daysInMonth_le_31 _ _)) h1 h2]
  dsimp only
  rw [validDateParts_mk _ _ _ (by omega) (by omega) hm1 hm2 hd1 hd2]
  simp

theorem dropWhile_eq_self_of_all {p : Char → Bool} {l : List Char}
    (h : ∀ c ∈ l, p c = false) : l.dropWhile p = l := by
  cases l with
  | nil => rfl
  | cons c cs =>
    rw [List.dropWhile_cons, h c (by simp)]
    simp

theorem pyStripL_eq_self {l : List Char}
    (h : ∀ c ∈ l, pyIsSpace c = false) : pyStripL l = l := by
  rw [pyStripL, dropWhile_eq_self_of_all h,
    dropWhile_eq_self_of_all (fun c hc => h c (List.mem_reverse.mp hc)),
    List.reverse_reverse]

theorem dropTrailingWhile_eq_self {p : Char → Bool} {l : List Char}
    (h : ∀ c ∈ l, p c = false) : dropTrailingWhile p l = l := by
  rw [dropTrailingWhile,
    dropWhile_eq_self_of_all (fun c hc => h c (List.mem_reverse.mp hc)),
    List.reverse_reverse]

theorem stripWeekdayPrefix_eq_self {l : List Char}
    (h : ∀ c ∈ l, pyIsAlpha c = false) : stripWeekdayPrefix l = l := by
  rw [stripWeekdayPrefix]
  cases l with
  | nil => simp
  | cons c cs =>
    have hc : pyIsAlpha c = false := h c (by simp)
    simp only [List.takeWhile_cons, hc]
    simp

theorem dateCleanup_eq_self {l : List Char}
    (h : ∀ c ∈ l, mdyChar c = true) : dateCleanup l = l := by
  rw [dateCleanup]
  have h1 : dropTrailingWhile (fun c => c = '?' || c = bulletChar) l = l :=
    dropTrailingWhile_eq_self (fun c hc => by
      have hq : c ≠ '?' := mdyChar_ne_of '?' (by decide) (h c hc)
      have hb : c ≠ bulletChar := mdyChar_ne_of bulletChar (by decide) (h c hc)
      simp [hq, hb])
  rw [h1]
  have h2 : pyStripL l = l :=
    pyStripL_eq_self (fun c hc => mdyChar_not_space (h c hc))
  rw [h2]
  have h3 : stripWeekdayPrefix l = l :=
    stripWeekdayPrefix_eq_self (fun c hc => mdyChar_not_alpha (h c hc))
  rw [h3]
  refine (List.map_congr_left ?_).trans (List.map_id l)
  intro c hc
  have ha : c ≠ curlyAposChar := mdyChar_ne_of curlyAposChar (by decide) (h c hc)
  have hb : c ≠ backquoteChar := mdyChar_ne_of backquoteChar (by decide) (h c hc)
  simp [ha, hb]

theorem mdyChar_compRender (b : Bool) (n : Nat) :
    ∀ c ∈ compRender b n, mdyChar c = true := by
  intro c hc
  rw [compRender] at hc
  split at hc
  · split at hc
    · simp only [List.mem_cons, List.not_mem_nil, or_false] at hc
      rcases hc with hc | hc <;> subst hc
      · decide
      · exact mdyChar_digitCharOf n
    · simp only [List.mem_singleton] at hc
      subst hc
      exact mdyChar_digitCharOf n
  · simp only [List.mem_cons, List.not_mem_nil, or_false] at hc
    rcases hc with hc | hc <;> subst hc <;> exact mdyChar_digitCharOf _

theorem mdyChar_pad2 (y : Nat) : ∀ c ∈ pad2 y, mdyChar c = true := by
  intro c hc
  rw [pad2] at hc
  simp only [List.mem_cons, List.not_mem_nil, or_false] at hc
  rcases hc with hc | hc <;> subst hc <;> exact mdyChar_digitCharOf _

theorem mdyChar_pad4 (Y : Nat) : ∀ c ∈ pad4 Y, mdyChar c = true := by
  intro c hc
  rw [pad4] at hc
  simp only [List.mem_cons, List.not_mem_nil, or_false] at hc
  rcases hc with hc | hc | hc | hc <;> subst hc <;> exact mdyChar_digitCharOf _

theorem mdyChar_mdyToken (pm pdg : Bool) (m d : Nat) {ytail : List Char}
    (hy : ∀ c ∈ ytail, mdyChar c = true) :
    ∀ c ∈ mdyToken pm m pdg d ytail, mdyChar c = true := by
  intro c hc
  rw [mdyToken] at hc
  simp only [List.mem_append, List.mem_cons] at hc
  rcases hc with hc | hc | hc | hc
  · exact mdyChar_compRender pm m c hc
  · subst hc; decide
  · exact mdyChar_compRender pdg d c hc
  · rcases hc with hc | hc
    · subst hc; decide
    · exact hy c hc

theorem compRender_ne_nil (b : Bool) (n : Nat) : compRender b n ≠ [] := by
  rw [compRender]
  split
  · split <;> simp
  · simp

theorem mdyToken_ne_nil (pm pdg : Bool) (m d : Nat) (ytail : List Char) :
    mdyToken pm m pdg d ytail ≠ [] := by
  rw [mdyToken]
  simp [compRender_ne_nil]

theorem findSome?_cons_none {α β : Type} (f : α → Option β) (a : α)
    (l : List α) (h : f a = none) :
    List.findSome? f (a :: l) = List.findSome? f l := by
  rw [List.findSome?_cons, h]

theorem findSome?_cons_some {α β : Type} (f : α → Option β) (a : α)
    (l : List α) (b : β) (h : f a = some b) :
    List.findSome? f (a :: l) = some b := by
  rw [List.findSome?_cons, h]

theorem tryParseDate_empty (s0 : String)
    (h : (pyStripL s0.data).isEmpty = true) : tryParseDate s0 = none := by
  unfold tryParseDate
  dsimp only
  rw [h]
  rfl

theorem tryParseDate_formats_some (s0 : String) (r : String)
    (hne : (pyStripL s0.data).isEmpty = false)
    (h : DATE_FORMAT_TRIES.findSome?
        (fun fmt => strptimeIso fmt (dateCleanup (pyStripL s0.data))) = some r) :
    tryParseDate s0 = some r := by
  unfold tryParseDate
  dsimp only
  rw [hne, if_neg Bool.false_ne_true, h]

theorem tryParseDate_no_match (s0 : String)
    (h1 : ∀ fmt ∈ DATE_FORMAT_TRIES,
        strptimeIso fmt (dateCleanup (pyStripL s0.data)) = none)
    (h2 : monthDayYearFallback (dateCleanup (pyStripL s0.data)) = none)
    (h3 : slashFallback (dateCleanup (pyStripL s0.data)) = none) :
    tryParseDate s0 = none := by
  cases hne : (pyStripL s0.data).isEmpty with
  | true =>
    unfold tryParseDate
    dsimp only
    rw [hne]
    rfl
  | false =>
    unfold tryParseDate
    dsimp only
    rw [hne, if_neg Bool.false_ne_true, List.findSome?_eq_none_iff.mpr h1,
      h2, h3]

theorem tryParseDate_mdy_pad2 (pm pdg : Bool) (m d y : Nat)
    (hm1 : 1 ≤ m) (hm2 : m ≤ 12) (hd1 : 1 ≤ d)
    (hd2 : d ≤ daysInMonth (y2kPivot y) m) (hy : y ≤ 99) :
    tryParseDate ⟨mdyToken pm m pdg d (pad2 y)⟩ =
      some (isoOfDateParts ⟨y2kPivot y, m, d⟩) := by
  have hchars := mdyChar_mdyToken pm pdg m d (mdyChar_pad2 y)
  have hstrip : pyStripL (mdyToken pm m pdg d (pad2 y)) =
      mdyToken pm m pdg d (pad2 y) :=
    pyStripL_eq_self (fun c hc => mdyChar_not_space (hchars c hc))
  have hclean := dateCleanup_eq_self hchars
  have hne : (mdyToken pm m pdg d (pad2 y)).isEmpty = false := by
    simp [List.isEmpty_iff, mdyToken_ne_nil]
  have hfmt1 := strptimeIso_mdy_Y_pad2 pm pdg m d y hm1 hm2 hd1
    (le_trans hd2 (daysInMonth_le_31 _ _))
  have hfmt2 := strptimeIso_mdy_y pm pdg m d y hm1 hm2 hd1 hd2 hy
  have hdata : (⟨mdyToken pm m pdg d (pad2 y)⟩ : String).data =
      mdyToken pm m pdg d (pad2 y) := rfl
  refine tryParseDate_formats_some _ _ ?_ ?_
  · rw [hdata, hstrip]
    exact hne
  · rw [hdata, hstrip, hclean, DATE_FORMAT_TRIES,
      findSome?_cons_none
        (fun fmt => strptimeIso fmt (mdyToken pm m pdg d (pad2 y))) _ _ hfmt1,
      findSome?_cons_some
        (fun fmt => strptimeIso fmt (mdyToken pm m pdg d (pad2 y))) _ _ _ hfmt2]

theorem tryParseDate_mdy_pad4 (pm pdg : Bool) (m d Y : Nat)
    (hm1 : 1 ≤ m) (hm2 : m ≤ 12) (hd1 : 1 ≤ d)
    (hd2 : d ≤ daysInMonth Y m) (h1 : 1000 ≤ Y) (h2 : Y ≤ 9999) :
    tryParseDate ⟨mdyToken pm m pdg d (pad4 Y)⟩ =
      some (isoOfDateParts ⟨Y, m, d⟩) := by
  have hchars := mdyChar_mdyToken pm pdg m d (mdyChar_pad4 Y)
  have hstrip : pyStripL (mdyToken pm m pdg d (pad4 Y)) =
      mdyToken pm m pdg d (pad4 Y) :=
    pyStripL_eq_self (fun c hc => mdyChar_not_space (hchars c hc))
  have hclean := dateCleanup_eq_self hchars
  have hne : (mdyToken pm m pdg d (pad4 Y)).isEmpty = false := by
    simp [List.isEmpty_iff, mdyToken_ne_nil]
  have hfmt1 := strptimeIso_mdy_Y_pad4 pm pdg m d Y hm1 hm2 hd1 hd2 h1 h2
  have hdata : (⟨mdyToken pm m pdg d (pad4 Y)⟩ : String).data =
      mdyToken pm m pdg d (pad4 Y) := rfl
  refine tryParseDate_formats_some _ _ ?_ ?_
  · rw [hdata, hstrip]
    exact hne
  · rw [hdata, hstrip, hclean, DATE_FORMAT_TRIES,
      findSome?_cons_some
        (fun fmt => strptimeIso fmt (mdyToken pm m pdg d (pad4 Y))) _ _ _ hfmt1]

/-- C8 counterexample: the valid `M/D/YY` token `"7/1/70"` is parsed to
`"1970-07-01"`, not to `"2070-07-01"`: `try_parse_date` does not expand
every 2-digit year by adding 2000, because `strptime("%m/%d/%y")` matches
before the `+2000` slash fallback and maps `70` to `1970`
(`ScanDocument.py` 26–33, 49–53). -/
theorem date_normalizer_plus2000_counterexample :
    tryParseDate "7/1/70" = some "1970-07-01" ∧
      tryParseDate "7/1/70" ≠ some "2070-07-01" := by
  decide

/-- C8 (amended): `try_parse_date` normalizes every valid `M/D/YY` token
(month and day each written with or without a leading zero, the year as
two digits) to ISO `YYYY-MM-DD` with the year expanded by the CPython
`%y` pivot — `00`–`68` become `2000`–`2068` and `69`–`99` become
`1969`–`1999` — e.g. `"7/1/25"` becomes `"2025-07-01"`; it normalizes
every valid `M/D/YYYY` token (four-digit year) to ISO with the literal
year; a whitespace-only input yields `none`, and so does any input on
which all twelve `strptime` formats and both regex fallbacks fail — the
function is total, so no input raises. -/
theorem date_normalizer_iso :
    (∀ pm pdg : Bool, ∀ m d y : Nat, 1 ≤ m → m ≤ 12 → 1 ≤ d →
        d ≤ daysInMonth (y2kPivot y) m → y ≤ 99 →
        tryParseDate ⟨mdyToken pm m pdg d (pad2 y)⟩ =
          some (isoOfDateParts ⟨y2kPivot y, m, d⟩)) ∧
    (∀ pm pdg : Bool, ∀ m d Y : Nat, 1 ≤ m → m ≤ 12 → 1 ≤ d →
        d ≤ daysInMonth Y m → 1000 ≤ Y → Y ≤ 9999 →
        tryParseDate ⟨mdyToken pm m pdg d (pad4 Y)⟩ =
          some (isoOfDateParts ⟨Y, m, d⟩)) ∧
    (∀ s0 : String, (pyStripL s0.data).isEmpty = true →
        tryParseDate s0 = none) ∧
    (∀ s0 : String,
        (∀ fmt ∈ DATE_FORMAT_TRIES,
            strptimeIso fmt (dateCleanup (pyStripL s0.data)) = none) →
        monthDayYearFallback (dateCleanup (pyStripL s0.data)) = none →
        slashFallback (dateCleanup (pyStripL s0.data)) = none →
        tryParseDate s0 = none) :=
  ⟨tryParseDate_mdy_pad2, tryParseDate_mdy_pad4,
   tryParseDate_empty, tryParseDate_no_match⟩

/-- C8 witness: the amended theorem applied at the spec example
`"7/1/25"`, at the four-digit token `"12/31/1999"`, at a whitespace-only
input, and at inputs no format or fallback matches — including
`"Thu Feb 3020"`, where fallback 1's regex commits to day `30` and the
one `strptime` call fails. -/
theorem date_normalizer_iso_witness :
    tryParseDate "7/1/25" = some "2025-07-01" ∧
    tryParseDate "12/31/1999" = some "1999-12-31" ∧
    tryParseDate "   " = none ∧
    tryParseDate "hello" = none ∧
    tryParseDate "Thu Feb 3020" = none := by
  refine ⟨?_, ?_, ?_, ?_, ?_⟩
  · have h := date_normalizer_iso.1 false false 7 1 25 (by decide) (by decide)
      (by decide) (by decide) (by decide)
    rw [(by decide :
          ("7/1/25" : String) = ⟨mdyToken false 7 false 1 (pad2 25)⟩),
        (by decide :
          ("2025-07-01" : String) = isoOfDateParts ⟨y2kPivot 25, 7, 1⟩)]
    exact h
  · have h := date_normalizer_iso.2.1 false false 12 31 1999 (by decide)
      (by decide) (by decide) (by decide) (by decide) (by decide)
    rw [(by decide :
          ("12/31/1999" : String) = ⟨mdyToken false 12 false 31 (pad4 1999)⟩),
        (by decide :
          ("1999-12-31" : String) = isoOfDateParts ⟨1999, 12, 31⟩)]
    exact h
  · exact date_normalizer_iso.2.2.1 "   " (by decide)
  · exact date_normalizer_iso.2.2.2 "hello" (by decide) (by decide) (by decide)
  · exact date_normalizer_iso.2.2.2 "Thu Feb 3020" (by decide) (by decide)
      (by decide)


end Spec2Proof
